import Mathlib

set_option maxRecDepth 4000

deriving instance DecidableEq for Except

namespace ProtocolCore

/-! Shallow embedding of the protocol-core repository (Rust) for claim checking.
    Byte buffers are `List Nat` with every element below 256; machine integers
    are `Nat`/`Int` with explicit `% 2^w` where overflow matters; fallible Rust
    functions returning `Result<T, ProtocolError>` become `Except PErr T`. -/

/-- Structured payload of `ProtocolError::ValidationFailed(String)`: the Rust
    code formats these two distinct messages; we keep them structurally apart. -/
inductive VMsg where
  | invalidLength (ty : String) (expected actual : Nat)
  | zeroScale
deriving DecidableEq

/-- Embedding of `defi::error::ProtocolError` (the constructors the claims touch). -/
inductive PErr where
  | notMachineCode (s : String)
  | notHex (s : String)
  | hexLengthError (context : String) (maxChars actualChars : Nat)
  | hexParseError (context : String)
  | invalidRange (start stop : Int) (reason : String)
  | invalidInput (msg : String)
  | paddingError (originalLen targetLen : Nat)
  | validationFailed (msg : VMsg)
  | commonError (msg : String)
  | crcError (oriCrc calcCrc : Nat)
deriving DecidableEq

/-- Uppercase hexadecimal digit character for a nibble (mirrors `hex::encode_upper`). -/
def hexDigit (n : Nat) : Char :=
  if n < 10 then Char.ofNat (48 + n) else Char.ofNat (55 + n)

/-- Big-endian hexadecimal digits of `v`, exactly `digits` characters, left zero-padded
    (the shape `format!("{:0widthX}", v)` produces for a `v` below `16^digits`). -/
def hexChars (v : Nat) : Nat → List Char
  | 0 => []
  | d + 1 => hexChars (v / 16) d ++ [hexDigit (v % 16)]

/-- Embedding of `hex_util::bytes_to_hex` / `hex::encode_upper`: uppercase hex of a
    byte buffer (the Rust wrapper returns `Ok` unconditionally, so this is total). -/
def bytesToHex (bytes : List Nat) : String :=
  String.mk ((bytes.map (fun b => hexChars b 2)).flatten)

/-- Value of one hexadecimal character, if it is one (both cases accepted). -/
def hexCharVal (c : Char) : Option Nat :=
  if 48 ≤ c.toNat ∧ c.toNat ≤ 57 then some (c.toNat - 48)
  else if 65 ≤ c.toNat ∧ c.toNat ≤ 70 then some (c.toNat - 55)
  else if 97 ≤ c.toNat ∧ c.toNat ≤ 102 then some (c.toNat - 87)
  else none

/-- Embedding of `hex::decode` on a character list: pairs of hex digits to bytes;
    odd length or a non-hex character yields `none`. -/
def hexPairsToBytes : List Char → Option (List Nat)
  | [] => some []
  | [_] => none
  | c1 :: c2 :: rest => do
    let h ← hexCharVal c1
    let l ← hexCharVal c2
    let tail ← hexPairsToBytes rest
    pure ((16 * h + l) :: tail)

/-- Embedding of `hex_util::is_bcd`: every character an ASCII digit. -/
def is_bcd (s : String) : Bool :=
  s.data.all (fun c => 48 ≤ c.toNat ∧ c.toNat ≤ 57)

/-- Embedding of `hex_util::is_hex`: `hex::decode` succeeds. -/
def is_hex (s : String) : Bool :=
  (hexPairsToBytes s.data).isSome

/-- Embedding of `hex_util::is_ascii_hex`: decodes to bytes that are all ASCII. -/
def is_ascii_hex (s : String) : Bool :=
  match hexPairsToBytes s.data with
  | none => false
  | some bs => bs.all (fun b => b ≤ 127)

/-- Embedding of `hex_util::ensure_is_machine_code`. -/
def ensure_is_machine_code (s : String) : Except PErr Unit :=
  if is_hex s || is_ascii_hex s || is_bcd s then .ok () else .error (.notMachineCode s)

/-- Embedding of `hex_util::hex_to_bytes`: machine-code check, then `hex::decode`. -/
def hex_to_bytes (s : String) : Except PErr (List Nat) := do
  let _ ← ensure_is_machine_code s
  match hexPairsToBytes s.data with
  | some bs => .ok bs
  | none => .error (.notHex s)

/-- Whitespace trim on the character list (structural-recursion equivalent of Rust's
    `str::trim` / Lean's `String.trim`, used so that proofs can evaluate). -/
def strTrim (s : String) : String :=
  String.mk ((((s.data.dropWhile Char.isWhitespace).reverse.dropWhile
    Char.isWhitespace).reverse))

/-- Embedding of the private `hex_util::clean_hex_str`: trim, strip a 0x / 0X prefix. -/
def cleanHexStr (s : String) : String :=
  let t := strTrim s
  match t.data with
  | '0' :: 'x' :: rest => String.mk rest
  | '0' :: 'X' :: rest => String.mk rest
  | _ => t

/-- Embedding of `hex_util::cut_bytes`: negative indices count from the end, `(0,0)`
    means the whole buffer, indices clamp to `0..len`, the slice is `empty` when the
    clamped range is inverted; both indices negative with `start > end` is an error. -/
def cut_bytes (data : List Nat) (start_index end_index : Int) : Except PErr (List Nat) :=
  let total_length := data.length
  let totalI : Int := (total_length : Int)
  if start_index = 0 ∧ end_index = 0 then .ok data
  else if start_index < 0 ∧ end_index < 0 ∧ end_index < start_index then
    .error (.invalidRange start_index end_index
      "When both indices are negative, start_index must be <= end_index")
  else
    let final_start : Nat :=
      if start_index < 0 then (max (totalI + start_index) 0).toNat
      else min start_index.toNat total_length
    let final_end : Nat :=
      if end_index < 0 then (max (totalI + end_index) 0).toNat
      else if end_index = 0 then total_length
      else min end_index.toNat total_length
    if final_start ≤ final_end ∧ final_end ≤ total_length then
      .ok ((data.drop final_start).take (final_end - final_start))
    else
      .ok []

/-- Padding shortfall computed by `pad_bytes_to_block_size` (verbatim from the source:
    zero when the length already equals the block size, otherwise up to the next
    multiple, a full extra block when the length is a larger multiple). -/
def shortBy (origin_length block_size : Nat) : Nat :=
  if origin_length = block_size then 0
  else if origin_length < block_size then block_size - origin_length
  else if origin_length % block_size = 0 then block_size
  else block_size - origin_length % block_size

/-- Embedding of `hex_util::pad_bytes_to_block_size`. -/
def pad_bytes_to_block_size (data : List Nat) (block_size : Nat) (padding_byte : Option Nat) :
    Except PErr (List Nat) :=
  if block_size = 0 then .error (.invalidInput "Block size (digit) must be positive")
  else
    let short_by := shortBy data.length block_size
    if short_by = 0 then .ok data
    else
      match padding_byte with
      | some b => .ok (data ++ List.replicate short_by b)
      | none =>
        if short_by > 255 then
          .error (.invalidInput "Default PKCS#7 padding length exceeds 255")
        else .ok (data ++ List.replicate short_by short_by)

/-- Embedding of the private `hex_util::parse_padding_hex`. -/
def parse_padding_hex (padding_hex : Option String) : Except PErr (Option Nat) :=
  match padding_hex with
  | none => .ok none
  | some s =>
    if strTrim s = "" then .ok none
    else
      match hex_to_bytes (strTrim s) with
      | .error e => .error e
      | .ok bs =>
        if bs.length ≠ 1 then .error (.invalidInput "Padding hex must be exactly 1 byte")
        else .ok (some (bs.getD 0 0))

/-- Embedding of `hex_util::pad_hex_to_block_size`. -/
def pad_hex_to_block_size (hex : String) (block_size : Nat) (padding_hex : Option String) :
    Except PErr String := do
  let data ← hex_to_bytes hex
  let padding_byte ← parse_padding_hex padding_hex
  let padded ← pad_bytes_to_block_size data block_size padding_byte
  pure (bytesToHex padded)

/-- Embedding of `core::parts::rawfield::Rawfield`. -/
structure Rawfield where
  bytes : List Nat
  title : String
  hex : String
  value : String
deriving DecidableEq

/-- Embedding of `Rawfield::new`: the stored hex is computed from the raw bytes
    with `hex::encode_upper`. -/
def Rawfield.new (raw_bytes : List Nat) (title value : String) : Rawfield :=
  { bytes := raw_bytes, title := title, hex := bytesToHex raw_bytes, value := value }

/-- Embedding of `Rawfield::new_with_hex`: the given hex string is stored verbatim and
    the bytes are its decoding; the Rust `.unwrap()` panic on undecodable hex becomes
    `none`. -/
def Rawfield.new_with_hex (hex : String) (title : String) (value : String) : Option Rawfield :=
  match hex_to_bytes hex with
  | .ok bs => some { bytes := bs, title := title, hex := hex, value := value }
  | .error _ => none

/-- Embedding of `hex_util::i32_to_hex`: `format!("{:08X}", number as u32)` followed by
    low-digit truncation, identity, or sign-dependent left padding. The Rust wrapper
    returns `Ok` unconditionally, so the embedding is total. -/
def i32_to_hex (number : Int) (expected_byte_length : Nat) : String :=
  let native := hexChars ((number % (2 ^ 32 : Int)).toNat) 8
  let expected_char_length := expected_byte_length * 2
  if expected_char_length < 8 then String.mk (native.drop (8 - expected_char_length))
  else if expected_char_length = 8 then String.mk native
  else
    String.mk (List.replicate (expected_char_length - 8)
      (if number < 0 then 'F' else '0') ++ native)

/-- Embedding of `hex_util::i16_to_hex` (native width 4 hex characters). -/
def i16_to_hex (number : Int) (expected_byte_length : Nat) : String :=
  let native := hexChars ((number % (2 ^ 16 : Int)).toNat) 4
  let expected_char_length := expected_byte_length * 2
  if expected_char_length < 4 then String.mk (native.drop (4 - expected_char_length))
  else if expected_char_length = 4 then String.mk native
  else
    String.mk (List.replicate (expected_char_length - 4)
      (if number < 0 then 'F' else '0') ++ native)

/-- Embedding of `hex_util::u32_to_hex`: like `i32_to_hex` but padding always `'0'`. -/
def u32_to_hex (number : Nat) (expected_byte_length : Nat) : String :=
  let native := hexChars number 8
  let expected_char_length := expected_byte_length * 2
  if expected_char_length < 8 then String.mk (native.drop (8 - expected_char_length))
  else if expected_char_length = 8 then String.mk native
  else String.mk (List.replicate (expected_char_length - 8) '0' ++ native)

/-- Embedding of `hex_util::u16_to_hex`. -/
def u16_to_hex (number : Nat) (expected_byte_length : Nat) : String :=
  let native := hexChars number 4
  let expected_char_length := expected_byte_length * 2
  if expected_char_length < 4 then String.mk (native.drop (4 - expected_char_length))
  else if expected_char_length = 4 then String.mk native
  else String.mk (List.replicate (expected_char_length - 4) '0' ++ native)

/-- Big-endian hexadecimal string parse (`u16::from_str_radix(v, 16)` on a cleaned,
    nonempty input): left fold over the digits, `none` on a non-hex character. -/
def hexStrToNat (s : String) : Option Nat :=
  s.data.foldl (fun acc c => acc.bind (fun a => (hexCharVal c).map (fun d => 16 * a + d)))
    (some 0)

/-- Modelled from the spec: `hex_util::hex_to_u16` is called by `crc_util::compare_crc`
    but is not among the sources under src/ (its siblings `hex_to_u32` and `hex_to_i16`
    are). Modelled after those siblings per the spec's bidirectional-conversion
    contract: machine-code check, trim and strip a 0x prefix, at most 4 hex characters
    for a 16-bit value, empty cleaned input parses as 0, big-endian hex parse. A
    4-character bound makes u16 overflow impossible. -/
def hex_to_u16 (hex : String) : Except PErr Nat := do
  let _ ← ensure_is_machine_code hex
  let v := cleanHexStr hex
  if v.length > 4 then .error (.hexLengthError "u16" 4 v.length)
  else if v = "" then .ok 0
  else
    match hexStrToNat v with
    | some u => .ok u
    | none => .error (.hexParseError "u16")

/-- Embedding of `crc_util::compare_crc`: accept the candidate if it parses to the
    computed checksum directly, retry with the candidate's bytes reversed, and only
    then report a `CrcError` carrying the reversed interpretation and the computed
    value. Each `?` propagation in the Rust is an explicit error match here. -/
def compare_crc (crc1 : String) (crc2 : Nat) : Except PErr Unit :=
  match hex_to_u16 crc1 with
  | .error e => .error e
  | .ok crc1_u16 =>
    if crc1_u16 = crc2 then .ok ()
    else
      match hex_to_bytes crc1 with
      | .error e => .error e
      | .ok temp =>
        match hex_to_u16 (bytesToHex temp.reverse) with
        | .error e => .error e
        | .ok calc_ori_crc =>
          if calc_ori_crc = crc2 then .ok () else .error (.crcError calc_ori_crc crc2)

/-- Big-endian unsigned value of a byte buffer (`<uN>::from_be_bytes`). -/
def beNat (bytes : List Nat) : Nat :=
  bytes.foldl (fun acc b => 256 * acc + b) 0

/-- Big-endian value under `<iN>::from_be_bytes`: the unsigned value reinterpreted as
    a two's-complement signed integer of `width` bytes. -/
def beTwosComplement (width : Nat) (bytes : List Nat) : Int :=
  let u := beNat bytes
  if 2 ^ (8 * width - 1) ≤ u then (u : Int) - 2 ^ (8 * width) else (u : Int)

/-- Signed or unsigned big-endian value, as selected by the integer variant. -/
def intValue (signed : Bool) (width : Nat) (bytes : List Nat) : Int :=
  if signed then beTwosComplement width bytes else (beNat bytes : Int)

/-- Half-up rounding of a rational at 6 fractional decimal digits, returned as the
    scaled integer numerator over 10^6 (midpoints round away from zero, matching the
    decimal HalfUp mode named by the spec). -/
def halfUpScaled6 (q : Rat) : Int :=
  let x := q * 1000000
  if 0 ≤ x then Int.floor (x + 1 / 2) else -Int.floor (-x + 1 / 2)

/-- Decimal digit characters of `v`, exactly `digits` characters, left zero-padded. -/
def decChars (v : Nat) : Nat → List Char
  | 0 => []
  | d + 1 => decChars (v / 10) d ++ [Char.ofNat (48 + v % 10)]

/-- Rendering of a 6-fractional-digit decimal given its scaled integer numerator. -/
def renderDecimal6 (m : Int) : String :=
  (if m < 0 then "-" else "") ++ toString (m.natAbs / 1000000) ++ "." ++
    String.mk (decChars (m.natAbs % 1000000) 6)

/-- Modelled from the spec: `math_util::multiply(6, DecimalRoundingMode::HalfUp, ..)`
    is exported by the crate but its source file is not under src/; per §4.4 it
    multiplies "using fixed-precision decimal arithmetic (half-up rounding, 6
    fractional digits)". Embedded as the exact rational product rounded half-up at 6
    fractional digits and rendered with 6 fractional digits. -/
def multiplyHalfUp6 (value : Int) (scale : Rat) : String :=
  renderDecimal6 (halfUpScaled6 ((value : Rat) * scale))

/-- Number of binary digits of `n` (0 for 0), driven by a structural fuel so proofs
    can evaluate it; the recursion halves `n`, so the fuel `n` is never exhausted. -/
def bitLen : Nat → Nat → Nat
  | 0, _ => 0
  | fuel + 1, n => if n = 0 then 0 else bitLen fuel (n / 2) + 1

/-- Bit length of a natural number. -/
def natBitLen (n : Nat) : Nat := bitLen n n

/-- Exact value of Rust's `value as f64` cast on a 64-bit integer (IEEE-754
    binary64): the magnitude is rounded to 53 significant bits with ties to even —
    the documented semantics of Rust's int-to-float `as` casts — and every 64-bit
    magnitude is far below the f64 overflow threshold, so the result is this exact
    integer. The cast is the identity below `2^53`. -/
def asF64 (v : Int) : Int :=
  let a := v.natAbs
  if a < 2 ^ 53 then v
  else
    let e := natBitLen a - 53
    let q := a / 2 ^ e
    let r := a % 2 ^ e
    let half := 2 ^ (e - 1)
    let q2 := if half < r ∨ (r = half ∧ q % 2 = 1) then q + 1 else q
    if v < 0 then -((q2 * 2 ^ e : Nat) : Int) else ((q2 * 2 ^ e : Nat) : Int)

/-- Embedding of the `handle_int!` macro from `core::macro_plugin`: exact-length
    check, big-endian conversion, the `value as f64` cast (`asF64`, exact rounding
    semantics), then the scale dispatch. Scale factors are `f64` configuration
    constants in Rust, embedded as exact rationals; `math_util::multiply` is
    spec-modelled (see `multiplyHalfUp6`). -/
def handleInt (tyName : String) (width : Nat) (signed : Bool) (scale : Rat)
    (bytes : List Nat) : Except PErr String :=
  if bytes.length ≠ width then
    .error (.validationFailed (.invalidLength tyName width bytes.length))
  else
    let value := intValue signed width bytes
    let value_f64 := asF64 value
    if scale ≠ 1 ∧ scale ≠ 0 then .ok (multiplyHalfUp6 value_f64 scale)
    else if scale = 0 then .error (.validationFailed .zeroScale)
    else .ok (toString value)

/-- Modelled from the spec: Float/Double decoding renders an IEEE-754 value with
    Rust's `Display`; bit-exact float formatting is outside the shallow embedding, so
    the rendering is kept abstractly as a total function of the big-endian bit
    pattern only (no claim inspects its output). -/
def floatDisplay (bits : Nat) : String :=
  "ieee754:" ++ toString bits

/-- Embedding of `core::FieldType` (scale factors as exact rationals). -/
inductive FieldType where
  | StringOrBCD
  | UnsignedU8 (scale : Rat)
  | UnsignedU16 (scale : Rat)
  | UnsignedU32 (scale : Rat)
  | UnsignedU64 (scale : Rat)
  | SignedI8 (scale : Rat)
  | SignedI16 (scale : Rat)
  | SignedI32 (scale : Rat)
  | SignedI64 (scale : Rat)
  | Float
  | Double
  | Ascii
deriving DecidableEq

/-- Embedding of `FieldType::convert`: dispatch per variant exactly as the Rust
    `match`, with the integer arms going through the `handle_int!` embedding. -/
def FieldType.convert (ft : FieldType) (bytes : List Nat) : Except PErr String :=
  match ft with
  | .StringOrBCD => .ok (bytesToHex bytes)
  | .UnsignedU8 scale => handleInt "u8" 1 false scale bytes
  | .UnsignedU16 scale => handleInt "u16" 2 false scale bytes
  | .UnsignedU32 scale => handleInt "u32" 4 false scale bytes
  | .UnsignedU64 scale => handleInt "u64" 8 false scale bytes
  | .SignedI8 scale => handleInt "i8" 1 true scale bytes
  | .SignedI16 scale => handleInt "i16" 2 true scale bytes
  | .SignedI32 scale => handleInt "i32" 4 true scale bytes
  | .SignedI64 scale => handleInt "i64" 8 true scale bytes
  | .Float =>
    if bytes.length ≠ 4 then
      .error (.validationFailed (.invalidLength "Float" 4 bytes.length))
    else .ok (floatDisplay (beNat bytes))
  | .Double =>
    if bytes.length ≠ 8 then
      .error (.validationFailed (.invalidLength "Double" 8 bytes.length))
    else .ok (floatDisplay (beNat bytes))
  | .Ascii =>
    if bytes.all (fun b => b ≤ 127) then .ok (String.mk (bytes.map Char.ofNat))
    else .error (.commonError "Input bytes are not valid ASCII")

/-- Layout of the integer variants: Rust type name, byte width, signedness, scale. -/
def FieldType.intLayout : FieldType → Option (String × Nat × Bool × Rat)
  | .UnsignedU8 scale => some ("u8", 1, false, scale)
  | .UnsignedU16 scale => some ("u16", 2, false, scale)
  | .UnsignedU32 scale => some ("u32", 4, false, scale)
  | .UnsignedU64 scale => some ("u64", 8, false, scale)
  | .SignedI8 scale => some ("i8", 1, true, scale)
  | .SignedI16 scale => some ("i16", 2, true, scale)
  | .SignedI32 scale => some ("i32", 4, true, scale)
  | .SignedI64 scale => some ("i64", 8, true, scale)
  | _ => none

/-- Bit-order reversal within one byte (`u8::reverse_bits`). -/
def reverseBits (b : Nat) : Nat :=
  (List.range 8).foldl (fun acc i => acc + if b / 2 ^ i % 2 = 1 then 2 ^ (7 - i) else 0) 0

/-- Embedding of `hex_util::swap_bytes`: reverse the bit order inside every byte,
    keeping the byte order (the Rust wrapper returns `Ok` unconditionally). -/
def swap_bytes (bytes : List Nat) : List Nat :=
  bytes.map reverseBits

/-- Embedding of `core::Symbol`. -/
inductive Symbol where
  | Percent | Voltage | MilliVoltage | Amber | CubicMeter | Liter | MilliLiter
  | Celsius | MeterPerSec | MeterPerHour | PA | KPA | CubicMeterPerHour
  | CubicMeterPerSec | Yuan
deriving DecidableEq

/-- Embedding of `Symbol::tag`. -/
def Symbol.tag : Symbol → String
  | .Percent => "%"
  | .Voltage => "V"
  | .MilliVoltage => "mV"
  | .Amber => "A"
  | .CubicMeter => "m³"
  | .Liter => "L"
  | .MilliLiter => "mL"
  | .Celsius => "℃"
  | .MeterPerSec => "m/s"
  | .MeterPerHour => "m/h"
  | .PA => "Pa"
  | .KPA => "kPa"
  | .CubicMeterPerHour => "m³/h"
  | .CubicMeterPerSec => "m³/s"
  | .Yuan => "元"

/-- Embedding of `core::FieldConvertDecoder` (the source's field name `filed_type` is
    kept verbatim). -/
structure FieldConvertDecoder where
  title : String
  filed_type : FieldType
  swap : Bool
  symbol : Option Symbol

/-- Embedding of `FieldTranslator::translate` for `FieldConvertDecoder`: optional
    byte-order reversal, field-type conversion, optional unit suffix, and a
    `Rawfield` built from the original bytes. -/
def FieldConvertDecoder.translate (d : FieldConvertDecoder) (bytes : List Nat) :
    Except PErr Rawfield :=
  let input_bytes := if d.swap ∧ bytes.length > 1 then bytes.reverse else bytes
  match d.filed_type.convert input_bytes with
  | .error e => .error e
  | .ok value =>
    let value2 :=
      match d.symbol with
      | some s => (value ++ " ") ++ s.tag
      | none => value
    .ok (Rawfield.new bytes d.title value2)

/-- Embedding of `core::FieldCompareDecoder`. -/
structure FieldCompareDecoder where
  title : String
  swap : Bool
  compare_target : List Nat

/-- Embedding of `FieldTranslator::translate` for `FieldCompareDecoder`; the Rust
    mismatch message interpolates both byte sequences, kept here as a fixed marker
    (no claim reads the message text). -/
def FieldCompareDecoder.translate (d : FieldCompareDecoder) (bytes : List Nat) :
    Except PErr Rawfield :=
  let input_bytes := if d.swap ∧ bytes.length > 1 then bytes.reverse else bytes
  if input_bytes ≠ d.compare_target then .error (.commonError "compare failed")
  else .ok (Rawfield.new bytes d.title (bytesToHex input_bytes))

/-- Embedding of `core::FieldEnumDecoder`. -/
structure FieldEnumDecoder where
  title : String
  swap : Bool
  enum_values : List (String × String)

/-- Embedding of `FieldTranslator::translate` for `FieldEnumDecoder`: first matching
    `(hex, label)` pair wins, an unmatched input falls back to the raw hex. -/
def FieldEnumDecoder.translate (d : FieldEnumDecoder) (bytes : List Nat) :
    Except PErr Rawfield :=
  let input_bytes := if d.swap ∧ bytes.length > 1 then bytes.reverse else bytes
  let hex := bytesToHex input_bytes
  let value :=
    match d.enum_values.find? (fun p => p.1 == hex) with
    | some p => p.2
    | none => hex
  .ok (Rawfield.new bytes d.title value)

/-- Refinement reference for C8, written from the spec's words: the produced value is
    the label of the first `(hex, label)` pair whose hex equals the uppercase hex of
    the (byte-reversed when swap is set) input, else that raw hex string itself. -/
def specEnumValue (d : FieldEnumDecoder) (bytes : List Nat) : String :=
  let hex := bytesToHex (if d.swap then bytes.reverse else bytes)
  match d.enum_values.find? (fun p => p.1 == hex) with
  | some p => p.2
  | none => hex

/-- Embedding of the `EncodingParams` trait (`core::parts::traits`): one record field
    per trait method an implementor supplies. `FieldType::encode` is called by
    `to_bytes` but its source is not under src/ (only this caller is); it is
    therefore carried as a function-valued field, which no claim inspects. -/
structure EncodingParams where
  code : String
  title : String
  byte_length : Nat
  field_type_encode : String → Except PErr (List Nat)
  default_value : String
  default_hex : String
  swap : Bool
  required : Bool

/-- Embedding of `EncodingParams::to_bytes`: resolve the input (explicit value,
    default hex, default value, or emptiness error for required fields), adjust to the
    declared byte length by truncating high bytes or zero-padding on the left, then
    apply `swap_bytes` when the swap flag is set. -/
def EncodingParams.to_bytes (p : EncodingParams) (input : String) : Except PErr (List Nat) :=
  let step1 : Except PErr (List Nat) :=
    if input = "" then
      if p.default_hex ≠ "" then hex_to_bytes p.default_hex
      else if p.default_value ≠ "" then p.field_type_encode p.default_value
      else if p.required then .error (.commonError "field is required but no value provided")
      else .ok []
    else p.field_type_encode input
  match step1 with
  | .error e => .error e
  | .ok bytes0 =>
    let expected_length := p.byte_length
    let actual_length := bytes0.length
    let bytes1 :=
      if expected_length > 0 ∧ actual_length ≠ expected_length then
        if actual_length > expected_length then bytes0.drop (actual_length - expected_length)
        else List.replicate (expected_length - actual_length) 0 ++ bytes0
      else bytes0
    if p.swap then .ok (swap_bytes bytes1) else .ok bytes1

/-- Suffix appended to a converted value when a unit symbol is attached. -/
def symbolSuffix : Option Symbol → String
  | some s => " " ++ s.tag
  | none => ""

/-! AES-128 block cipher (FIPS-197), the block primitive the `aes` crate provides to
    `digester::aes_digester`. Bytes are `Nat` below 256; the state is the flat
    column-major 16-byte list exactly as the byte order of the Rust block. -/

/-- AES forward S-box (FIPS-197 figure 7). -/
def sboxTable : List Nat :=
  [99, 124, 119, 123, 242, 107, 111, 197, 48, 1, 103, 43, 254, 215, 171, 118, 202, 130, 201, 125, 250, 89, 71, 240, 173, 212, 162, 175, 156, 164, 114, 192, 183, 253, 147, 38, 54, 63, 247, 204, 52, 165, 229, 241, 113, 216, 49, 21, 4, 199, 35, 195, 24, 150, 5, 154, 7, 18, 128, 226, 235, 39, 178, 117, 9, 131, 44, 26, 27, 110, 90, 160, 82, 59, 214, 179, 41, 227, 47, 132, 83, 209, 0, 237, 32, 252, 177, 91, 106, 203, 190, 57, 74, 76, 88, 207, 208, 239, 170, 251, 67, 77, 51, 133, 69, 249, 2, 127, 80, 60, 159, 168, 81, 163, 64, 143, 146, 157, 56, 245, 188, 182, 218, 33, 16, 255, 243, 210, 205, 12, 19, 236, 95, 151, 68, 23, 196, 167, 126, 61, 100, 93, 25, 115, 96, 129, 79, 220, 34, 42, 144, 136, 70, 238, 184, 20, 222, 94, 11, 219, 224, 50, 58, 10, 73, 6, 36, 92, 194, 211, 172, 98, 145, 149, 228, 121, 231, 200, 55, 109, 141, 213, 78, 169, 108, 86, 244, 234, 101, 122, 174, 8, 186, 120, 37, 46, 28, 166, 180, 198, 232, 221, 116, 31, 75, 189, 139, 138, 112, 62, 181, 102, 72, 3, 246, 14, 97, 53, 87, 185, 134, 193, 29, 158, 225, 248, 152, 17, 105, 217, 142, 148, 155, 30, 135, 233, 206, 85, 40, 223, 140, 161, 137, 13, 191, 230, 66, 104, 65, 153, 45, 15, 176, 84, 187, 22]

/-- AES inverse S-box. -/
def invSboxTable : List Nat :=
  [82, 9, 106, 213, 48, 54, 165, 56, 191, 64, 163, 158, 129, 243, 215, 251, 124, 227, 57, 130, 155, 47, 255, 135, 52, 142, 67, 68, 196, 222, 233, 203, 84, 123, 148, 50, 166, 194, 35, 61, 238, 76, 149, 11, 66, 250, 195, 78, 8, 46, 161, 102, 40, 217, 36, 178, 118, 91, 162, 73, 109, 139, 209, 37, 114, 248, 246, 100, 134, 104, 152, 22, 212, 164, 92, 204, 93, 101, 182, 146, 108, 112, 72, 80, 253, 237, 185, 218, 94, 21, 70, 87, 167, 141, 157, 132, 144, 216, 171, 0, 140, 188, 211, 10, 247, 228, 88, 5, 184, 179, 69, 6, 208, 44, 30, 143, 202, 63, 15, 2, 193, 175, 189, 3, 1, 19, 138, 107, 58, 145, 17, 65, 79, 103, 220, 234, 151, 242, 207, 206, 240, 180, 230, 115, 150, 172, 116, 34, 231, 173, 53, 133, 226, 249, 55, 232, 28, 117, 223, 110, 71, 241, 26, 113, 29, 41, 197, 137, 111, 183, 98, 14, 170, 24, 190, 27, 252, 86, 62, 75, 198, 210, 121, 32, 154, 219, 192, 254, 120, 205, 90, 244, 31, 221, 168, 51, 136, 7, 199, 49, 177, 18, 16, 89, 39, 128, 236, 95, 96, 81, 127, 169, 25, 181, 74, 13, 45, 229, 122, 159, 147, 201, 156, 239, 160, 224, 59, 77, 174, 42, 245, 176, 200, 235, 187, 60, 131, 83, 153, 97, 23, 43, 4, 126, 186, 119, 214, 38, 225, 105, 20, 99, 85, 33, 12, 125]

/-- Forward S-box lookup. -/
def sb (b : Nat) : Nat := sboxTable.getD b 0

/-- Inverse S-box lookup. -/
def isb (b : Nat) : Nat := invSboxTable.getD b 0

/-- Multiplication by x in GF(2^8) modulo x^8 + x^4 + x^3 + x + 1. -/
def xtime (x : Nat) : Nat :=
  if x < 128 then 2 * x else ((2 * x) % 256) ^^^ 27

/-- GF(2^8) multiplication by the MixColumns constants. -/
def mul2 (x : Nat) : Nat := xtime x

/-- Multiplication by 3 in GF(2^8). -/
def mul3 (x : Nat) : Nat := xtime x ^^^ x

/-- Multiplication by 9 in GF(2^8). -/
def mul9 (x : Nat) : Nat := xtime (xtime (xtime x)) ^^^ x

/-- Multiplication by 11 in GF(2^8). -/
def mul11 (x : Nat) : Nat := xtime (xtime (xtime x)) ^^^ xtime x ^^^ x

/-- Multiplication by 13 in GF(2^8). -/
def mul13 (x : Nat) : Nat := xtime (xtime (xtime x)) ^^^ xtime (xtime x) ^^^ x

/-- Multiplication by 14 in GF(2^8). -/
def mul14 (x : Nat) : Nat := xtime (xtime (xtime x)) ^^^ xtime (xtime x) ^^^ xtime x

/-- SubBytes. -/
def subBytes (s : List Nat) : List Nat := s.map sb

/-- InvSubBytes. -/
def invSubBytes (s : List Nat) : List Nat := s.map isb

/-- ShiftRows on the flat column-major state. -/
def shiftRows : List Nat → List Nat
  | [a0, a1, a2, a3, a4, a5, a6, a7, a8, a9, a10, a11, a12, a13, a14, a15] =>
    [a0, a5, a10, a15, a4, a9, a14, a3, a8, a13, a2, a7, a12, a1, a6, a11]
  | s => s

/-- InvShiftRows on the flat column-major state. -/
def invShiftRows : List Nat → List Nat
  | [a0, a1, a2, a3, a4, a5, a6, a7, a8, a9, a10, a11, a12, a13, a14, a15] =>
    [a0, a13, a10, a7, a4, a1, a14, a11, a8, a5, a2, a15, a12, a9, a6, a3]
  | s => s

/-- MixColumns on one 4-byte column. -/
def mixCol : List Nat → List Nat
  | [a, b, c, d] =>
    [mul2 a ^^^ mul3 b ^^^ c ^^^ d,
     a ^^^ mul2 b ^^^ mul3 c ^^^ d,
     a ^^^ b ^^^ mul2 c ^^^ mul3 d,
     mul3 a ^^^ b ^^^ c ^^^ mul2 d]
  | c => c

/-- InvMixColumns on one 4-byte column. -/
def invMixCol : List Nat → List Nat
  | [a, b, c, d] =>
    [mul14 a ^^^ mul11 b ^^^ mul13 c ^^^ mul9 d,
     mul9 a ^^^ mul14 b ^^^ mul11 c ^^^ mul13 d,
     mul13 a ^^^ mul9 b ^^^ mul14 c ^^^ mul11 d,
     mul11 a ^^^ mul13 b ^^^ mul9 c ^^^ mul14 d]
  | c => c

/-- MixColumns over the four columns of the flat state. -/
def mixColumns (s : List Nat) : List Nat :=
  mixCol (s.take 4) ++ mixCol ((s.drop 4).take 4) ++ mixCol ((s.drop 8).take 4) ++
    mixCol (s.drop 12)

/-- InvMixColumns over the four columns of the flat state. -/
def invMixColumns (s : List Nat) : List Nat :=
  invMixCol (s.take 4) ++ invMixCol ((s.drop 4).take 4) ++ invMixCol ((s.drop 8).take 4) ++
    invMixCol (s.drop 12)

/-- AddRoundKey: bytewise XOR of state and round key. -/
def addRoundKey (s k : List Nat) : List Nat :=
  List.zipWith (fun a b => a ^^^ b) s k

/-- Round constants, `Rcon[j]` for rounds 1..10. -/
def rcon (j : Nat) : Nat :=
  [1, 2, 4, 8, 16, 32, 64, 128, 27, 54].getD (j - 1) 0

/-- SubWord of the key schedule. -/
def subWord (w : List Nat) : List Nat := w.map sb

/-- RotWord of the key schedule. -/
def rotWord : List Nat → List Nat
  | [a, b, c, d] => [b, c, d, a]
  | w => w

/-- Bytewise XOR of two words. -/
def xorWord (w1 w2 : List Nat) : List Nat :=
  List.zipWith (fun a b => a ^^^ b) w1 w2

/-- Key-expansion loop: append `n` further words per FIPS-197 section 5.2. -/
def expandLoop : Nat → List (List Nat) → List (List Nat)
  | 0, ws => ws
  | n + 1, ws =>
    let i := ws.length
    let prev := ws.getD (i - 1) []
    let temp := if i % 4 = 0 then xorWord (subWord (rotWord prev)) [rcon (i / 4), 0, 0, 0]
      else prev
    expandLoop n (ws ++ [xorWord (ws.getD (i - 4) []) temp])

/-- AES-128 key expansion: 44 four-byte words from the 16-byte key. -/
def keyExpansion (key : List Nat) : List (List Nat) :=
  expandLoop 40
    [key.take 4, (key.drop 4).take 4, (key.drop 8).take 4, (key.drop 12).take 4]

/-- Round key `r` as a flat 16-byte list. -/
def roundKey (ws : List (List Nat)) (r : Nat) : List Nat :=
  ws.getD (4 * r) [] ++ ws.getD (4 * r + 1) [] ++ ws.getD (4 * r + 2) [] ++
    ws.getD (4 * r + 3) []

/-- AES-128 block encryption (`Aes128::encrypt_block`). -/
def encryptBlock (ws : List (List Nat)) (block : List Nat) : List Nat :=
  let s0 := addRoundKey block (roundKey ws 0)
  let s9 := (List.range 9).foldl
    (fun s r => addRoundKey (mixColumns (shiftRows (subBytes s))) (roundKey ws (r + 1))) s0
  addRoundKey (shiftRows (subBytes s9)) (roundKey ws 10)

/-- AES-128 block decryption (`Aes128::decrypt_block`), the FIPS-197 inverse cipher. -/
def decryptBlock (ws : List (List Nat)) (block : List Nat) : List Nat :=
  let s0 := addRoundKey block (roundKey ws 10)
  let s9 := (List.range 9).foldl
    (fun s r => invMixColumns (addRoundKey (invSubBytes (invShiftRows s)) (roundKey ws (9 - r))))
    s0
  addRoundKey (invSubBytes (invShiftRows s9)) (roundKey ws 0)

/-- Big-endian bytes of a value, exactly `n` bytes (`u128::to_be_bytes` for n = 16). -/
def natToBeBytes : Nat → Nat → List Nat
  | 0, _ => []
  | k + 1, v => natToBeBytes k (v / 256) ++ [v % 256]

/-- Fuel-driven 16-byte chunking (`slice::chunks(16)`), structural so proofs can
    evaluate it. -/
def chunksAux : Nat → List Nat → List (List Nat)
  | 0, _ => []
  | fuel + 1, l => if l = [] then [] else l.take 16 :: chunksAux fuel (l.drop 16)

/-- 16-byte chunks of a buffer; the final chunk may be shorter. -/
def chunks16 (l : List Nat) : List (List Nat) :=
  chunksAux l.length l

/-- Embedding of `AesCipher::pkcs7_pad`: always appends 1..16 bytes, each equal to
    the pad length. -/
def pkcs7_pad (data : List Nat) : List Nat :=
  let padding_len := 16 - data.length % 16
  data ++ List.replicate padding_len padding_len

/-- Embedding of `AesCipher::pkcs7_unpad`: empty input passes, a pad byte of 0 or
    above 16 or an inconsistent tail fails. -/
def pkcs7_unpad (data : List Nat) : Except String (List Nat) :=
  if data = [] then .ok []
  else
    let padding_byte := data.getD (data.length - 1) 0
    let padding_len := padding_byte
    if padding_len = 0 ∨ padding_len > 16 then .error "Invalid padding"
    else if (data.drop (data.length - padding_len)).all (fun b => b = padding_byte) then
      .ok (data.take (data.length - padding_len))
    else .error "Invalid padding"

/-- Embedding of `AesMode`. -/
inductive AesMode where
  | NONE | CBC | CFB | CTR | CTS | ECB | OFB
deriving DecidableEq

/-- Embedding of `AesCipher`: the expanded key schedule plus the mode. -/
structure AesCipher where
  ws : List (List Nat)
  mode : AesMode

/-- Embedding of `AesCipher::new`: a non-16-byte key is rejected. -/
def AesCipher.new (key : List Nat) (mode : AesMode) : Except String AesCipher :=
  if key.length ≠ 16 then .error "Key must be 16 bytes for AES-128"
  else .ok ⟨keyExpansion key, mode⟩

/-- Embedding of `AesCipher::encrypt_ecb`. -/
def encrypt_ecb (ws : List (List Nat)) (data : List Nat) : Except String (List Nat) :=
  .ok (((chunks16 (pkcs7_pad data)).map (encryptBlock ws)).flatten)

/-- Embedding of `AesCipher::decrypt_ecb`. -/
def decrypt_ecb (ws : List (List Nat)) (data : List Nat) : Except String (List Nat) :=
  if data.length % 16 ≠ 0 then .error "Data length must be multiple of 16 bytes"
  else pkcs7_unpad (((chunks16 data).map (decryptBlock ws)).flatten)

/-- Embedding of `AesCipher::encrypt_cbc`: XOR with the previous ciphertext block
    (or the IV), then block-encrypt. -/
def encrypt_cbc (ws : List (List Nat)) (data iv : List Nat) : Except String (List Nat) :=
  if iv.length ≠ 16 then .error "IV must be 16 bytes"
  else
    let r := (chunks16 (pkcs7_pad data)).foldl
      (fun (acc : List Nat × List Nat) chunk =>
        let block := encryptBlock ws (List.zipWith (fun a b => a ^^^ b) chunk acc.2)
        (acc.1 ++ block, block)) ([], iv)
    .ok r.1

/-- Embedding of `AesCipher::decrypt_cbc`. -/
def decrypt_cbc (ws : List (List Nat)) (data iv : List Nat) : Except String (List Nat) :=
  if iv.length ≠ 16 then .error "IV must be 16 bytes"
  else if data.length % 16 ≠ 0 then .error "Data length must be multiple of 16 bytes"
  else
    let r := (chunks16 data).foldl
      (fun (acc : List Nat × List Nat) chunk =>
        let decrypted := List.zipWith (fun a b => a ^^^ b) (decryptBlock ws chunk) acc.2
        (acc.1 ++ decrypted, chunk)) ([], iv)
    pkcs7_unpad r.1

/-- Embedding of `AesCipher::encrypt_cfb`. The Rust source sets
    `feedback = GenericArray::clone_from_slice(&output)` before its `< 16` length
    guard; `clone_from_slice` panics on a slice that is not exactly 16 bytes, so a
    final partial chunk panics, modelled as an error. -/
def encrypt_cfb (ws : List (List Nat)) (data iv : List Nat) : Except String (List Nat) :=
  if iv.length ≠ 16 then .error "IV must be 16 bytes"
  else
    ((chunks16 data).foldlM
      (fun (acc : List Nat × List Nat) chunk =>
        let block := encryptBlock ws acc.2
        let output := List.zipWith (fun a b => a ^^^ b) chunk block
        if output.length = 16 then pure (acc.1 ++ output, output)
        else Except.error "panicked: GenericArray::clone_from_slice slice length mismatch")
      ([], iv)).map (fun r => r.1)

/-- Embedding of `AesCipher::decrypt_cfb`; the same pre-guard
    `clone_from_slice(chunk)` panic applies to a final partial chunk. -/
def decrypt_cfb (ws : List (List Nat)) (data iv : List Nat) : Except String (List Nat) :=
  if iv.length ≠ 16 then .error "IV must be 16 bytes"
  else
    ((chunks16 data).foldlM
      (fun (acc : List Nat × List Nat) chunk =>
        let block := encryptBlock ws acc.2
        let output := List.zipWith (fun a b => a ^^^ b) chunk block
        if chunk.length = 16 then pure (acc.1 ++ output, chunk)
        else Except.error "panicked: GenericArray::clone_from_slice slice length mismatch")
      ([], iv)).map (fun r => r.1)

/-- Embedding of `AesCipher::encrypt_ctr`: the IV is a 128-bit big-endian counter,
    incremented with wraparound per block. -/
def encrypt_ctr (ws : List (List Nat)) (data iv : List Nat) : Except String (List Nat) :=
  if iv.length ≠ 16 then .error "IV must be 16 bytes"
  else
    let r := (chunks16 data).foldl
      (fun (acc : List Nat × Nat) chunk =>
        let block := encryptBlock ws (natToBeBytes 16 acc.2)
        (acc.1 ++ List.zipWith (fun a b => a ^^^ b) chunk block,
          (acc.2 + 1) % (2 ^ 128))) ([], beNat iv)
    .ok r.1

/-- Embedding of `AesCipher::decrypt_ctr` (identical to encryption). -/
def decrypt_ctr (ws : List (List Nat)) (data iv : List Nat) : Except String (List Nat) :=
  encrypt_ctr ws data iv

/-- Embedding of `AesCipher::encrypt_ofb`: the keystream feeds back through the
    block cipher independently of the data. -/
def encrypt_ofb (ws : List (List Nat)) (data iv : List Nat) : Except String (List Nat) :=
  if iv.length ≠ 16 then .error "IV must be 16 bytes"
  else
    let r := (chunks16 data).foldl
      (fun (acc : List Nat × List Nat) chunk =>
        let block := encryptBlock ws acc.2
        (acc.1 ++ List.zipWith (fun a b => a ^^^ b) chunk block, block)) ([], iv)
    .ok r.1

/-- Embedding of `AesCipher::decrypt_ofb` (identical to encryption). -/
def decrypt_ofb (ws : List (List Nat)) (data iv : List Nat) : Except String (List Nat) :=
  encrypt_ofb ws data iv

/-- Embedding of `AesCipher::encrypt_cts`, verbatim: block-aligned input degenerates
    to CBC; otherwise the main part (all but the last two blocks) goes through
    `encrypt_cbc` (which pads it), the zero-padded last partial block is raw
    block-encrypted and truncated to the remainder, and the second-last plaintext
    block is raw block-encrypted and appended in full. -/
def encrypt_cts (ws : List (List Nat)) (data iv : List Nat) : Except String (List Nat) :=
  if iv.length ≠ 16 then .error "IV must be 16 bytes"
  else if data.length < 16 then .error "Data must be at least one block for CTS mode"
  else
    let full_blocks := data.length / 16
    let remainder := data.length % 16
    if remainder = 0 then encrypt_cbc ws data iv
    else
      (if full_blocks > 1 then encrypt_cbc ws (data.take ((full_blocks - 1) * 16)) iv
       else Except.ok []).map
        (fun main =>
          let second_last := (data.drop ((full_blocks - 1) * 16)).take 16
          let last_block := data.drop (full_blocks * 16)
          let padded_last := last_block ++ List.replicate (16 - last_block.length) 0
          let temp := encryptBlock ws padded_last
          let second_last_enc := encryptBlock ws second_last
          main ++ temp.take remainder ++ second_last_enc)

/-- Embedding of `AesCipher::decrypt_cts`, verbatim: the main part goes through
    `decrypt_cbc` (which unpads), the last 16 ciphertext bytes are block-decrypted in
    full, and the stolen block is rebuilt from the remainder ciphertext bytes plus
    the tail of that decrypted block before being block-decrypted. -/
def decrypt_cts (ws : List (List Nat)) (data iv : List Nat) : Except String (List Nat) :=
  if iv.length ≠ 16 then .error "IV must be 16 bytes"
  else if data.length < 16 then .error "Data must be at least one block for CTS mode"
  else
    let full_blocks := data.length / 16
    let remainder := data.length % 16
    if remainder = 0 then decrypt_cbc ws data iv
    else
      (if full_blocks > 1 then decrypt_cbc ws (data.take ((full_blocks - 1) * 16)) iv
       else Except.ok []).map
        (fun main =>
          let stolen_part := (data.drop ((full_blocks - 1) * 16)).take remainder
          let last_block := data.drop ((full_blocks - 1) * 16 + remainder)
          let temp := decryptBlock ws last_block
          let stolen_block := stolen_part ++ temp.drop remainder
          let stolen_dec := decryptBlock ws stolen_block
          main ++ temp ++ stolen_dec.take remainder)

/-- Embedding of `AesCipher::encrypt`. -/
def AesCipher.encrypt (c : AesCipher) (data iv : List Nat) : Except String (List Nat) :=
  match c.mode with
  | .ECB => encrypt_ecb c.ws data
  | .CBC => encrypt_cbc c.ws data iv
  | .CFB => encrypt_cfb c.ws data iv
  | .CTR => encrypt_ctr c.ws data iv
  | .OFB => encrypt_ofb c.ws data iv
  | .CTS => encrypt_cts c.ws data iv
  | .NONE => .ok data

/-- Embedding of `AesCipher::decrypt`. -/
def AesCipher.decrypt (c : AesCipher) (data iv : List Nat) : Except String (List Nat) :=
  match c.mode with
  | .ECB => decrypt_ecb c.ws data
  | .CBC => decrypt_cbc c.ws data iv
  | .CFB => decrypt_cfb c.ws data iv
  | .CTR => decrypt_ctr c.ws data iv
  | .OFB => decrypt_ofb c.ws data iv
  | .CTS => decrypt_cts c.ws data iv
  | .NONE => .ok data

/-- Round trip through one cipher: decrypt the encryption, as the claim states. -/
def aesRoundTrip (key : List Nat) (mode : AesMode) (data iv : List Nat) :
    Except String (List Nat) :=
  match AesCipher.new key mode with
  | .error e => .error e
  | .ok c => (c.encrypt data iv).bind (fun ct => c.decrypt ct iv)

/-! Theorems. -/

/-- The padding shortfall is positive whenever the buffer length differs from the
    block size (the only length the source leaves unpadded). -/
theorem shortBy_pos {n b : Nat} (hb : 0 < b) (hne : n ≠ b) : 0 < shortBy n b := by
  have hrem : n % b < b := Nat.mod_lt _ hb
  unfold shortBy
  split_ifs with h1 h2 h3
  · exact absurd h1 hne
  · omega
  · omega
  · omega

/-- The padding shortfall never exceeds the block size. -/
theorem shortBy_le {n b : Nat} (hb : 0 < b) : shortBy n b ≤ b := by
  unfold shortBy
  split_ifs <;> omega

/-- C2 counterexample: a buffer whose length equals the block size is returned
    unchanged by the default padding, so the length does not strictly increase. -/
theorem c2_counterexample :
    pad_bytes_to_block_size [51, 34, 17, 0] 4 none = Except.ok [51, 34, 17, 0] ∧
    pad_hex_to_block_size "33221100" 4 none = Except.ok "33221100" := by
  constructor
  · decide
  · decide

/-- C2 amended: for every buffer and block size `b` with `0 < b ≤ 255`, default
    (PKCS#7-style) padding strictly increases the length and appends pad bytes each
    equal to the pad length, except when the length equals `b` exactly, where the
    source returns the buffer unchanged; `pad_hex_to_block_size` matches on hex. -/
theorem c2_amended :
    (∀ (data : List Nat) (b : Nat), 0 < b → b ≤ 255 → data.length ≠ b →
      pad_bytes_to_block_size data b none =
        Except.ok (data ++ List.replicate (shortBy data.length b) (shortBy data.length b)) ∧
      data.length <
        (data ++ List.replicate (shortBy data.length b) (shortBy data.length b)).length) ∧
    (∀ (s : String) (data : List Nat) (b : Nat), hex_to_bytes s = Except.ok data →
      0 < b → b ≤ 255 → data.length ≠ b →
      pad_hex_to_block_size s b none =
        Except.ok (bytesToHex
          (data ++ List.replicate (shortBy data.length b) (shortBy data.length b)))) := by
  have key : ∀ (data : List Nat) (b : Nat), 0 < b → b ≤ 255 → data.length ≠ b →
      pad_bytes_to_block_size data b none =
        Except.ok (data ++ List.replicate (shortBy data.length b) (shortBy data.length b)) := by
    intro data b hb hb255 hne
    have hpos := shortBy_pos (n := data.length) hb hne
    have hle := shortBy_le (n := data.length) (b := b) hb
    unfold pad_bytes_to_block_size
    have hbne : ¬ (b = 0) := by omega
    rw [if_neg hbne, if_neg (by omega : ¬ (shortBy data.length b = 0)),
      if_neg (by omega : ¬ (shortBy data.length b > 255))]
  constructor
  · intro data b hb hb255 hne
    refine ⟨key data b hb hb255 hne, ?_⟩
    have hpos := shortBy_pos (n := data.length) hb hne
    simp only [List.length_append, List.length_replicate]
    omega
  · intro s data b hs hb hb255 hne
    have hstep : pad_hex_to_block_size s b none =
        (pad_bytes_to_block_size data b none).bind (fun padded => .ok (bytesToHex padded)) := by
      unfold pad_hex_to_block_size
      rw [hs]
      rfl
    rw [hstep, key data b hb hb255 hne]
    rfl

/-- C2 witness: concrete instances of the amended statement. -/
theorem c2_amended_witness :
    pad_bytes_to_block_size [1, 2, 3] 4 none = Except.ok [1, 2, 3, 1] ∧
    pad_hex_to_block_size "0102" 8 none = Except.ok "0102060606060606" := by
  have h1 := (c2_amended.1 [1, 2, 3] 4 (by decide) (by decide) (by decide)).1
  have h2 := c2_amended.2 "0102" [1, 2] 8 (by decide) (by decide) (by decide) (by decide)
  exact ⟨h1.trans (by decide), h2.trans (by decide)⟩

/-- C3 counterexample: with both indices negative and `start > end`, `cut_bytes`
    returns an `InvalidRange` error rather than succeeding. -/
theorem c3_counterexample :
    cut_bytes [1, 2, 3] (-1) (-2) =
      Except.error (PErr.invalidRange (-1) (-2)
        "When both indices are negative, start_index must be <= end_index") := by
  decide

/-- C3 amended: `cut_bytes` never fails except when both indices are negative with
    `start > end`; `(0,0)` returns the whole buffer, `(-4,0)` the last four bytes,
    indices clamp to the valid bounds, and a range inverted after clamping (such as
    `(5,3)`) yields an empty vector. -/
theorem c3_amended :
    (∀ data : List Nat, cut_bytes data 0 0 = Except.ok data) ∧
    (∀ (data : List Nat) (s e : Int), 0 ≤ s ∨ 0 ≤ e → ∃ v, cut_bytes data s e = Except.ok v) ∧
    (∀ (data : List Nat) (s e : Int), s < 0 → e < 0 → s ≤ e →
      ∃ v, cut_bytes data s e = Except.ok v) ∧
    (∀ data : List Nat, 4 ≤ data.length →
      cut_bytes data (-4) 0 = Except.ok (data.drop (data.length - 4))) ∧
    (∀ (data : List Nat) (s e : Int), 0 < e → e ≤ s → cut_bytes data s e = Except.ok []) ∧
    (∀ (data : List Nat) (e : Int), 0 < e → data.length ≤ e.toNat →
      cut_bytes data 0 e = Except.ok data) := by
  refine ⟨?_, ?_, ?_, ?_, ?_, ?_⟩
  · intro data
    simp [cut_bytes]
  · intro data s e h
    rcases h with h | h <;>
    · simp only [cut_bytes]
      split_ifs with h1 h2 h3 <;> first | exact ⟨_, rfl⟩ | exact absurd h2 (by omega)
  · intro data s e hs he hse
    simp only [cut_bytes]
    split_ifs with h1 h2 h3 <;> first | exact ⟨_, rfl⟩ | exact absurd h2 (by omega)
  · intro data hlen
    unfold cut_bytes
    dsimp only
    rw [if_neg (by omega : ¬ ((-4 : Int) = 0 ∧ (0 : Int) = 0))]
    rw [if_neg (by omega : ¬ ((-4 : Int) < 0 ∧ (0 : Int) < 0 ∧ (0 : Int) < (-4 : Int)))]
    rw [if_pos (by omega : (-4 : Int) < 0)]
    rw [if_neg (by omega : ¬ ((0 : Int) < 0))]
    rw [if_pos (rfl : (0 : Int) = 0)]
    have hstart : (max ((data.length : Int) + (-4)) 0).toNat = data.length - 4 := by omega
    rw [hstart]
    rw [if_pos (by omega : data.length - 4 ≤ data.length ∧ data.length ≤ data.length)]
    have hlen2 : (data.drop (data.length - 4)).length = data.length - (data.length - 4) :=
      List.length_drop _ _
    rw [List.take_of_length_le (by omega)]
  · intro data s e he hes
    unfold cut_bytes
    dsimp only
    rw [if_neg (by omega : ¬ (s = 0 ∧ e = 0))]
    rw [if_neg (by omega : ¬ (s < 0 ∧ e < 0 ∧ e < s))]
    rw [if_neg (by omega : ¬ (s < 0))]
    rw [if_neg (by omega : ¬ (e < 0))]
    rw [if_neg (by omega : ¬ (e = 0))]
    split_ifs with h
    · have hz : min e.toNat data.length - min s.toNat data.length = 0 := by omega
      rw [hz, List.take_zero]
    · rfl
  · intro data e he hlen
    unfold cut_bytes
    dsimp only
    rw [if_neg (by omega : ¬ ((0 : Int) = 0 ∧ e = 0))]
    rw [if_neg (by omega : ¬ ((0 : Int) < 0 ∧ e < 0 ∧ e < 0))]
    rw [if_neg (by omega : ¬ ((0 : Int) < 0))]
    rw [if_neg (by omega : ¬ (e < 0))]
    rw [if_neg (by omega : ¬ (e = 0))]
    have hfs : min (Int.toNat 0) data.length = 0 := by omega
    have hfe : min e.toNat data.length = data.length := by omega
    rw [hfs, hfe]
    rw [if_pos (by omega : 0 ≤ data.length ∧ data.length ≤ data.length)]
    rw [List.drop_zero, List.take_of_length_le (by omega)]

/-- C3 witness: concrete instances of the amended statement. -/
theorem c3_amended_witness :
    (∃ v, cut_bytes [1, 2, 3] 5 (-1) = Except.ok v) ∧
    cut_bytes [9, 8, 7, 6, 5] (-4) 0 = Except.ok [8, 7, 6, 5] ∧
    cut_bytes [1, 2, 3] 5 3 = Except.ok [] ∧
    cut_bytes [1, 2, 3] 0 100 = Except.ok [1, 2, 3] := by
  refine ⟨c3_amended.2.1 [1, 2, 3] 5 (-1) (Or.inl (by decide)), ?_, ?_, ?_⟩
  · exact (c3_amended.2.2.2.1 [9, 8, 7, 6, 5] (by decide)).trans (by decide)
  · exact c3_amended.2.2.2.2.1 [1, 2, 3] 5 3 (by decide) (by decide)
  · exact c3_amended.2.2.2.2.2 [1, 2, 3] 100 (by decide) (by decide)

/-- C4 counterexample: `Rawfield::new_with_hex` stores a lowercase hex input verbatim,
    so the stored hex differs from the canonical uppercase encoding of the bytes. -/
theorem c4_counterexample :
    Rawfield.new_with_hex "ab" "t" "v" =
      some { bytes := [171], title := "t", hex := "ab", value := "v" } ∧
    bytesToHex [171] = "AB" ∧ ("ab" : String) ≠ "AB" := by
  refine ⟨by decide, by decide, by decide⟩

/-- C4 amended: `Rawfield::new` always satisfies the uppercase-hex invariant, while
    `Rawfield::new_with_hex` stores the given hex verbatim with its decoded bytes, so
    its invariant holds exactly when the given string is the canonical uppercase
    encoding of its own decoding. -/
theorem c4_amended :
    (∀ (bs : List Nat) (t v : String),
      (Rawfield.new bs t v).hex = bytesToHex (Rawfield.new bs t v).bytes) ∧
    (∀ (h t v : String) (rf : Rawfield), Rawfield.new_with_hex h t v = some rf →
      rf.hex = h ∧ hex_to_bytes h = Except.ok rf.bytes ∧
      (rf.hex = bytesToHex rf.bytes ↔ h = bytesToHex rf.bytes)) := by
  constructor
  · intro bs t v
    rfl
  · intro h t v rf hrf
    unfold Rawfield.new_with_hex at hrf
    revert hrf
    cases hhex : hex_to_bytes h with
    | error e => intro hrf; cases hrf
    | ok bs =>
      intro hrf
      have hrf2 : rf = { bytes := bs, title := t, hex := h, value := v } :=
        (Option.some.inj hrf).symm
      subst hrf2
      exact ⟨rfl, rfl, Iff.rfl⟩

/-- C4 witness: a concrete uppercase instance of the amended statement. -/
theorem c4_amended_witness :
    ({ bytes := [171], title := "t", hex := "AB", value := "v" } : Rawfield).hex = "AB" ∧
    hex_to_bytes "AB" =
      Except.ok ({ bytes := [171], title := "t", hex := "AB", value := "v" } : Rawfield).bytes ∧
    (({ bytes := [171], title := "t", hex := "AB", value := "v" } : Rawfield).hex =
        bytesToHex ({ bytes := [171], title := "t", hex := "AB", value := "v" } : Rawfield).bytes ↔
      "AB" = bytesToHex ({ bytes := [171], title := "t", hex := "AB", value := "v" } : Rawfield).bytes) :=
  c4_amended.2 "AB" "t" "v" { bytes := [171], title := "t", hex := "AB", value := "v" } (by decide)

/-- The hex rendering always has exactly the requested number of characters. -/
theorem hexChars_length : ∀ (d v : Nat), (hexChars v d).length = d := by
  intro d
  induction d with
  | zero => intro v; rfl
  | succ d ih => intro v; simp [hexChars, ih]

/-- Rendering zero gives all `'0'` characters. -/
theorem hexChars_zero : ∀ d, hexChars 0 d = List.replicate d '0' := by
  intro d
  induction d with
  | zero => rfl
  | succ d ih =>
    simp only [hexChars, Nat.zero_div, Nat.zero_mod, ih]
    rw [show hexDigit 0 = '0' by decide, ← List.replicate_succ']

/-- Rendering `16^d - 1` gives all `'F'` characters. -/
theorem hexChars_allF : ∀ d, hexChars (16 ^ d - 1) d = List.replicate d 'F' := by
  intro d
  induction d with
  | zero => rfl
  | succ d ih =>
    have h16 : 1 ≤ (16 : Nat) ^ d := Nat.one_le_pow _ _ (by norm_num)
    have hd : (16 ^ (d + 1) - 1) / 16 = 16 ^ d - 1 := by
      rw [pow_succ]
      omega
    have hm : (16 ^ (d + 1) - 1) % 16 = 15 := by
      rw [pow_succ]
      omega
    simp only [hexChars, hd, hm, ih]
    rw [show hexDigit 15 = 'F' by decide, ← List.replicate_succ']

/-- Digit-decomposition of a fixed-width rendering: the high digits render the
    quotient, the low digits the remainder. -/
theorem hexChars_split : ∀ (b a v : Nat),
    hexChars v (a + b) = hexChars (v / 16 ^ b) a ++ hexChars (v % 16 ^ b) b := by
  intro b
  induction b with
  | zero => intro a v; simp [hexChars]
  | succ b ih =>
    intro a v
    rw [show a + (b + 1) = (a + b) + 1 from by omega]
    simp only [hexChars]
    rw [ih a (v / 16)]
    have hdd : v / 16 / 16 ^ b = v / 16 ^ (b + 1) := by
      rw [Nat.div_div_eq_div_mul, ← pow_succ']
    have hmd : v / 16 % 16 ^ b = v % 16 ^ (b + 1) / 16 := by
      rw [pow_succ', Nat.mod_mul_right_div_self]
    have hmm : v % 16 ^ (b + 1) % 16 = v % 16 :=
      Nat.mod_mod_of_dvd _ ⟨16 ^ b, by rw [pow_succ']⟩
    rw [hdd, hmd, hmm, List.append_assoc]

/-- Dropping the high digits of a rendering keeps the low digits of the value. -/
theorem hexChars_drop (v N C : Nat) (h : C ≤ N) :
    (hexChars v N).drop (N - C) = hexChars (v % 16 ^ C) C := by
  have hsplit : hexChars v N = hexChars (v / 16 ^ C) (N - C) ++ hexChars (v % 16 ^ C) C := by
    have hs := hexChars_split C (N - C) v
    rwa [show (N - C) + C = N from by omega] at hs
  rw [hsplit, List.drop_left' (hexChars_length _ _)]

/-- Widening the rendering of a small value pads on the left with `'0'`. -/
theorem hexChars_pad_zero (v N C : Nat) (h : C ≤ N) (hv : v < 16 ^ C) :
    hexChars v N = List.replicate (N - C) '0' ++ hexChars v C := by
  have hsplit : hexChars v N = hexChars (v / 16 ^ C) (N - C) ++ hexChars (v % 16 ^ C) C := by
    have hs := hexChars_split C (N - C) v
    rwa [show (N - C) + C = N from by omega] at hs
  rw [hsplit, Nat.div_eq_of_lt hv, Nat.mod_eq_of_lt hv, hexChars_zero]

/-- Rendering a value whose high digits are all ones pads on the left with `'F'`. -/
theorem hexChars_pad_ones (N C r : Nat) (h : C ≤ N) (hr : r < 16 ^ C) :
    hexChars ((16 ^ (N - C) - 1) * 16 ^ C + r) N = List.replicate (N - C) 'F' ++ hexChars r C := by
  have hBpos : 0 < (16 : Nat) ^ C := Nat.pos_pow_of_pos _ (by norm_num)
  have hcomm : (16 ^ (N - C) - 1) * 16 ^ C + r = 16 ^ C * (16 ^ (N - C) - 1) + r := by ring
  have hdiv : ((16 ^ (N - C) - 1) * 16 ^ C + r) / 16 ^ C = 16 ^ (N - C) - 1 := by
    rw [hcomm, Nat.mul_add_div hBpos, Nat.div_eq_of_lt hr, Nat.add_zero]
  have hmod : ((16 ^ (N - C) - 1) * 16 ^ C + r) % 16 ^ C = r := by
    rw [hcomm, Nat.mul_add_mod, Nat.mod_eq_of_lt hr]
  have hsplit := hexChars_split C (N - C) ((16 ^ (N - C) - 1) * 16 ^ C + r)
  rw [show (N - C) + C = N from by omega] at hsplit
  rw [hsplit, hdiv, hmod, hexChars_allF]

/-- Truncation and identity cases of `i32_to_hex`: for a target at most the native
    width, the output renders the low `L*2` hex digits of the 32-bit two's-complement
    pattern. -/
theorem i32_to_hex_low (n : Int) (L : Nat) (hL : L ≤ 4) :
    i32_to_hex n L =
      String.mk (hexChars ((n % (2 ^ 32 : Int)).toNat % 16 ^ (L * 2)) (L * 2)) := by
  have h168 : (16 : Nat) ^ 8 = 4294967296 := by norm_num
  have hvlt : (n % (2 ^ 32 : Int)).toNat < 16 ^ 8 := by omega
  unfold i32_to_hex
  dsimp only
  by_cases h8 : L * 2 < 8
  · rw [if_pos h8, hexChars_drop _ 8 (L * 2) (by omega)]
  · have hL2 : L * 2 = 8 := by omega
    rw [if_neg h8, if_pos hL2, hL2, Nat.mod_eq_of_lt hvlt]

/-- Extension case of `i32_to_hex`, stated literally: the output left-pads the native
    8 digits with `'F'` for a negative input and `'0'` otherwise. -/
theorem i32_to_hex_pad (n : Int) (L : Nat) (hL : 4 < L) :
    i32_to_hex n L =
      String.mk (List.replicate (L * 2 - 8) (if n < 0 then 'F' else '0') ++
        hexChars ((n % (2 ^ 32 : Int)).toNat) 8) := by
  unfold i32_to_hex
  dsimp only
  rw [if_neg (by omega : ¬ (L * 2 < 8)), if_neg (by omega : ¬ (L * 2 = 8))]

/-- Semantic form of `i32_to_hex` for targets at least the native width: for an i32
    input, the output is exactly the two's-complement pattern of `n` at the target
    width, so sign extension is truthful. -/
theorem i32_to_hex_ext (n : Int) (L : Nat) (h1 : -2 ^ 31 ≤ n) (h2 : n < 2 ^ 31)
    (hL : 4 ≤ L) :
    i32_to_hex n L = String.mk (hexChars ((n % ((2 : Int) ^ (8 * L))).toNat) (L * 2)) := by
  have h168 : (16 : Nat) ^ 8 = 4294967296 := by norm_num
  by_cases hL4 : L = 4
  · subst hL4
    rw [i32_to_hex_low n 4 (by norm_num)]
    have hval : (n % (2 ^ 32 : Int)).toNat % 16 ^ (4 * 2) = (n % ((2 : Int) ^ (8 * 4))).toNat := by
      rw [show (16 : Nat) ^ (4 * 2) = 4294967296 from by norm_num,
        show ((2 : Int) ^ (8 * 4)) = 2 ^ 32 from by norm_num]
      omega
    rw [hval]
  · have hLgt : 4 < L := by omega
    rw [i32_to_hex_pad n L hLgt]
    set AN : Nat := 2 ^ (8 * L - 32) with hAN
    have hA1 : 1 ≤ AN := Nat.one_le_pow _ _ (by norm_num)
    have hMA : (2 : Int) ^ (8 * L) = (AN : Int) * 2 ^ 32 := by
      have hsum : (8 * L - 32) + 32 = 8 * L := by omega
      calc (2 : Int) ^ (8 * L) = 2 ^ ((8 * L - 32) + 32) := by rw [hsum]
        _ = 2 ^ (8 * L - 32) * 2 ^ 32 := pow_add 2 _ _
        _ = (AN : Int) * 2 ^ 32 := by rw [hAN]; push_cast; ring
    have hA16 : AN = 16 ^ (L * 2 - 8) := by
      rw [hAN, show (16 : Nat) = 2 ^ 4 from by norm_num, ← pow_mul]
      congr 1
      omega
    have hM32 : (2 : Int) ^ 32 ≤ 2 ^ (8 * L) := pow_le_pow_right (by norm_num) (by omega)
    by_cases hneg : n < 0
    · rw [if_pos hneg]
      have haddmod : (n + 2 ^ (8 * L)) % 2 ^ (8 * L) = n % 2 ^ (8 * L) := by
        have h := Int.add_mul_emod_self_left (a := n) (b := (2 : Int) ^ (8 * L)) (c := 1)
        simpa using h
      have hmod : n % ((2 : Int) ^ (8 * L)) = n + 2 ^ (8 * L) := by
        rw [← haddmod, Int.emod_eq_of_lt (by omega) (by omega)]
      have hval16 : (n % ((2 : Int) ^ (8 * L))).toNat =
          (16 ^ (L * 2 - 8) - 1) * 16 ^ 8 + (n + 2 ^ 32).toNat := by
        rw [hmod, hMA, ← hA16, h168]
        omega
      have hB : (n % (2 ^ 32 : Int)).toNat = (n + 2 ^ 32).toNat := by omega
      rw [hval16, hB, hexChars_pad_ones (L * 2) 8 _ (by omega) (by rw [h168]; omega)]
    · rw [if_neg hneg]
      have hmod : n % ((2 : Int) ^ (8 * L)) = n := Int.emod_eq_of_lt (by omega) (by omega)
      have hvm : (n % (2 ^ 32 : Int)).toNat = n.toNat := by omega
      rw [hmod, hvm, hexChars_pad_zero n.toNat (L * 2) 8 (by omega) (by rw [h168]; omega)]

/-- Truncation and identity cases of `i16_to_hex`. -/
theorem i16_to_hex_low (n : Int) (L : Nat) (hL : L ≤ 2) :
    i16_to_hex n L =
      String.mk (hexChars ((n % (2 ^ 16 : Int)).toNat % 16 ^ (L * 2)) (L * 2)) := by
  have h164 : (16 : Nat) ^ 4 = 65536 := by norm_num
  have hvlt : (n % (2 ^ 16 : Int)).toNat < 16 ^ 4 := by omega
  unfold i16_to_hex
  dsimp only
  by_cases h4 : L * 2 < 4
  · rw [if_pos h4, hexChars_drop _ 4 (L * 2) (by omega)]
  · have hL2 : L * 2 = 4 := by omega
    rw [if_neg h4, if_pos hL2, hL2, Nat.mod_eq_of_lt hvlt]

/-- Extension case of `i16_to_hex`, stated literally. -/
theorem i16_to_hex_pad (n : Int) (L : Nat) (hL : 2 < L) :
    i16_to_hex n L =
      String.mk (List.replicate (L * 2 - 4) (if n < 0 then 'F' else '0') ++
        hexChars ((n % (2 ^ 16 : Int)).toNat) 4) := by
  unfold i16_to_hex
  dsimp only
  rw [if_neg (by omega : ¬ (L * 2 < 4)), if_neg (by omega : ¬ (L * 2 = 4))]

/-- Semantic form of `i16_to_hex` for targets at least the native width. -/
theorem i16_to_hex_ext (n : Int) (L : Nat) (h1 : -2 ^ 15 ≤ n) (h2 : n < 2 ^ 15)
    (hL : 2 ≤ L) :
    i16_to_hex n L = String.mk (hexChars ((n % ((2 : Int) ^ (8 * L))).toNat) (L * 2)) := by
  have h164 : (16 : Nat) ^ 4 = 65536 := by norm_num
  by_cases hL2 : L = 2
  · subst hL2
    rw [i16_to_hex_low n 2 (by norm_num)]
    have hval : (n % (2 ^ 16 : Int)).toNat % 16 ^ (2 * 2) = (n % ((2 : Int) ^ (8 * 2))).toNat := by
      rw [show (16 : Nat) ^ (2 * 2) = 65536 from by norm_num,
        show ((2 : Int) ^ (8 * 2)) = 2 ^ 16 from by norm_num]
      omega
    rw [hval]
  · have hLgt : 2 < L := by omega
    rw [i16_to_hex_pad n L hLgt]
    set AN : Nat := 2 ^ (8 * L - 16) with hAN
    have hA1 : 1 ≤ AN := Nat.one_le_pow _ _ (by norm_num)
    have hMA : (2 : Int) ^ (8 * L) = (AN : Int) * 2 ^ 16 := by
      have hsum : (8 * L - 16) + 16 = 8 * L := by omega
      calc (2 : Int) ^ (8 * L) = 2 ^ ((8 * L - 16) + 16) := by rw [hsum]
        _ = 2 ^ (8 * L - 16) * 2 ^ 16 := pow_add 2 _ _
        _ = (AN : Int) * 2 ^ 16 := by rw [hAN]; push_cast; ring
    have hA16 : AN = 16 ^ (L * 2 - 4) := by
      rw [hAN, show (16 : Nat) = 2 ^ 4 from by norm_num, ← pow_mul]
      congr 1
      omega
    have hM16 : (2 : Int) ^ 16 ≤ 2 ^ (8 * L) := pow_le_pow_right (by norm_num) (by omega)
    by_cases hneg : n < 0
    · rw [if_pos hneg]
      have haddmod : (n + 2 ^ (8 * L)) % 2 ^ (8 * L) = n % 2 ^ (8 * L) := by
        have h := Int.add_mul_emod_self_left (a := n) (b := (2 : Int) ^ (8 * L)) (c := 1)
        simpa using h
      have hmod : n % ((2 : Int) ^ (8 * L)) = n + 2 ^ (8 * L) := by
        rw [← haddmod, Int.emod_eq_of_lt (by omega) (by omega)]
      have hval16 : (n % ((2 : Int) ^ (8 * L))).toNat =
          (16 ^ (L * 2 - 4) - 1) * 16 ^ 4 + (n + 2 ^ 16).toNat := by
        rw [hmod, hMA, ← hA16, h164]
        omega
      have hB : (n % (2 ^ 16 : Int)).toNat = (n + 2 ^ 16).toNat := by omega
      rw [hval16, hB, hexChars_pad_ones (L * 2) 4 _ (by omega) (by rw [h164]; omega)]
    · rw [if_neg hneg]
      have hmod : n % ((2 : Int) ^ (8 * L)) = n := Int.emod_eq_of_lt (by omega) (by omega)
      have hvm : (n % (2 ^ 16 : Int)).toNat = n.toNat := by omega
      rw [hmod, hvm, hexChars_pad_zero n.toNat (L * 2) 4 (by omega) (by rw [h164]; omega)]

/-- Semantic form of `u32_to_hex` at every target width: the output is the low
    `L*2` hex digits of the value, zero-extended on the left for wide targets. -/
theorem u32_to_hex_sem (v L : Nat) (hv : v < 2 ^ 32) :
    u32_to_hex v L = String.mk (hexChars (v % 16 ^ (L * 2)) (L * 2)) := by
  have h168 : (16 : Nat) ^ 8 = 4294967296 := by norm_num
  unfold u32_to_hex
  dsimp only
  by_cases h8 : L * 2 < 8
  · rw [if_pos h8, hexChars_drop v 8 (L * 2) (by omega)]
  · by_cases hEq : L * 2 = 8
    · rw [if_neg h8, if_pos hEq, hEq, Nat.mod_eq_of_lt (by omega)]
    · rw [if_neg h8, if_neg hEq]
      have hle : (16 : Nat) ^ 8 ≤ 16 ^ (L * 2) := Nat.pow_le_pow_right (by norm_num) (by omega)
      rw [Nat.mod_eq_of_lt (by omega), hexChars_pad_zero v (L * 2) 8 (by omega) (by omega)]

/-- Semantic form of `u16_to_hex` at every target width. -/
theorem u16_to_hex_sem (v L : Nat) (hv : v < 2 ^ 16) :
    u16_to_hex v L = String.mk (hexChars (v % 16 ^ (L * 2)) (L * 2)) := by
  have h164 : (16 : Nat) ^ 4 = 65536 := by norm_num
  unfold u16_to_hex
  dsimp only
  by_cases h4 : L * 2 < 4
  · rw [if_pos h4, hexChars_drop v 4 (L * 2) (by omega)]
  · by_cases hEq : L * 2 = 4
    · rw [if_neg h4, if_pos hEq, hEq, Nat.mod_eq_of_lt (by omega)]
    · rw [if_neg h4, if_neg hEq]
      have hle : (16 : Nat) ^ 4 ≤ 16 ^ (L * 2) := Nat.pow_le_pow_right (by norm_num) (by omega)
      rw [Nat.mod_eq_of_lt (by omega), hexChars_pad_zero v (L * 2) 4 (by omega) (by omega)]

/-- C5: the integer-to-hex converters keep the native big-endian hex at the native
    width, keep exactly the `2*L` low-order digits for shorter targets, and extend on
    the left with `'F'` for negative signed inputs and `'0'` otherwise (always `'0'`
    for the unsigned variants); for signed inputs in range and targets at least the
    native width the output is exactly the two's-complement pattern `n mod 2^(8L)`. -/
theorem c5_int_to_hex :
    (∀ (n : Int) (L : Nat), L ≤ 4 →
      i32_to_hex n L =
        String.mk (hexChars ((n % (2 ^ 32 : Int)).toNat % 16 ^ (L * 2)) (L * 2))) ∧
    (∀ (n : Int) (L : Nat), -2 ^ 31 ≤ n → n < 2 ^ 31 → 4 ≤ L →
      i32_to_hex n L = String.mk (hexChars ((n % ((2 : Int) ^ (8 * L))).toNat) (L * 2))) ∧
    (∀ (n : Int) (L : Nat), 4 < L →
      i32_to_hex n L =
        String.mk (List.replicate (L * 2 - 8) (if n < 0 then 'F' else '0') ++
          hexChars ((n % (2 ^ 32 : Int)).toNat) 8)) ∧
    (∀ (n : Int) (L : Nat), L ≤ 2 →
      i16_to_hex n L =
        String.mk (hexChars ((n % (2 ^ 16 : Int)).toNat % 16 ^ (L * 2)) (L * 2))) ∧
    (∀ (n : Int) (L : Nat), -2 ^ 15 ≤ n → n < 2 ^ 15 → 2 ≤ L →
      i16_to_hex n L = String.mk (hexChars ((n % ((2 : Int) ^ (8 * L))).toNat) (L * 2))) ∧
    (∀ (n : Int) (L : Nat), 2 < L →
      i16_to_hex n L =
        String.mk (List.replicate (L * 2 - 4) (if n < 0 then 'F' else '0') ++
          hexChars ((n % (2 ^ 16 : Int)).toNat) 4)) ∧
    (∀ (v L : Nat), v < 2 ^ 32 →
      u32_to_hex v L = String.mk (hexChars (v % 16 ^ (L * 2)) (L * 2))) ∧
    (∀ (v L : Nat), v < 2 ^ 16 →
      u16_to_hex v L = String.mk (hexChars (v % 16 ^ (L * 2)) (L * 2))) :=
  ⟨i32_to_hex_low, i32_to_hex_ext, i32_to_hex_pad, i16_to_hex_low, i16_to_hex_ext,
    i16_to_hex_pad, u32_to_hex_sem, u16_to_hex_sem⟩

/-- C5 witness: the spec's own example `-22` at narrow, native and wide i16 targets,
    plus unsigned instances. -/
theorem c5_int_to_hex_witness :
    i16_to_hex (-22) 1 = "EA" ∧ i16_to_hex (-22) 2 = "FFEA" ∧
    i16_to_hex (-22) 4 = "FFFFFFEA" ∧ i32_to_hex (-22) 6 = "FFFFFFFFFFEA" ∧
    u32_to_hex 22 2 = "0016" ∧ u16_to_hex 22 4 = "00000016" := by
  refine ⟨?_, ?_, ?_, ?_, ?_, ?_⟩
  · rw [c5_int_to_hex.2.2.2.1 (-22) 1 (by norm_num)]
    decide
  · rw [c5_int_to_hex.2.2.2.1 (-22) 2 (by norm_num)]
    decide
  · rw [c5_int_to_hex.2.2.2.2.1 (-22) 4 (by norm_num) (by norm_num) (by norm_num)]
    decide
  · rw [c5_int_to_hex.2.1 (-22) 6 (by norm_num) (by norm_num) (by norm_num)]
    decide
  · rw [c5_int_to_hex.2.2.2.2.2.2.1 22 2 (by norm_num)]
    decide
  · rw [c5_int_to_hex.2.2.2.2.2.2.2 22 4 (by norm_num)]
    decide

/-- C6: `compare_crc` accepts exactly when the candidate parses to the computed
    checksum directly or after reversing the candidate's byte order; when both
    interpretations exist and differ from the computed value, it returns the
    `CrcError` mismatch carrying the reversed interpretation and the computed value. -/
theorem c6_compare_crc :
    (∀ (crc1 : String) (crc2 : Nat),
      compare_crc crc1 crc2 = Except.ok () ↔
        (∃ v, hex_to_u16 crc1 = Except.ok v ∧
          (v = crc2 ∨ ∃ bs, hex_to_bytes crc1 = Except.ok bs ∧
            hex_to_u16 (bytesToHex bs.reverse) = Except.ok crc2))) ∧
    (∀ (crc1 : String) (crc2 v v2 : Nat) (bs : List Nat),
      hex_to_u16 crc1 = Except.ok v →
      hex_to_bytes crc1 = Except.ok bs →
      hex_to_u16 (bytesToHex bs.reverse) = Except.ok v2 →
      v ≠ crc2 → v2 ≠ crc2 →
      compare_crc crc1 crc2 = Except.error (PErr.crcError v2 crc2)) := by
  constructor
  · intro crc1 crc2
    unfold compare_crc
    cases h1 : hex_to_u16 crc1 with
    | error e =>
      dsimp only
      constructor
      · intro h
        exact Except.noConfusion h
      · rintro ⟨v, hv, _⟩
        exact Except.noConfusion hv
    | ok v =>
      dsimp only
      by_cases hv : v = crc2
      · rw [if_pos hv]
        exact iff_of_true rfl ⟨v, rfl, Or.inl hv⟩
      · rw [if_neg hv]
        cases h2 : hex_to_bytes crc1 with
        | error e =>
          dsimp only
          constructor
          · intro h
            exact Except.noConfusion h
          · rintro ⟨v', hv', hor⟩
            obtain rfl : v = v' := Except.ok.inj hv'
            rcases hor with h | ⟨bs, hbs, _⟩
            · exact absurd h hv
            · exact Except.noConfusion hbs
        | ok temp =>
          dsimp only
          cases h3 : hex_to_u16 (bytesToHex temp.reverse) with
          | error e2 =>
            dsimp only
            constructor
            · intro h
              exact Except.noConfusion h
            · rintro ⟨v', hv', hor⟩
              obtain rfl : v = v' := Except.ok.inj hv'
              rcases hor with h | ⟨bs, hbs, hrev⟩
              · exact absurd h hv
              · obtain rfl : temp = bs := Except.ok.inj hbs
                rw [h3] at hrev
                exact Except.noConfusion hrev
          | ok v2 =>
            dsimp only
            by_cases hv2 : v2 = crc2
            · rw [if_pos hv2]
              refine iff_of_true rfl ⟨v, rfl, Or.inr ⟨temp, rfl, ?_⟩⟩
              rw [h3, hv2]
            · rw [if_neg hv2]
              constructor
              · intro h
                exact Except.noConfusion h
              · rintro ⟨v', hv', hor⟩
                obtain rfl : v = v' := Except.ok.inj hv'
                rcases hor with h | ⟨bs, hbs, hrev⟩
                · exact absurd h hv
                · obtain rfl : temp = bs := Except.ok.inj hbs
                  rw [h3] at hrev
                  exact absurd (Except.ok.inj hrev) hv2
  · intro crc1 crc2 v v2 bs h1 h2 h3 hv hv2
    unfold compare_crc
    rw [h1]
    dsimp only
    rw [if_neg hv, h2]
    dsimp only
    rw [h3]
    dsimp only
    rw [if_neg hv2]

/-- C6 witness: a checksum accepted in reversed byte order and a true mismatch. -/
theorem c6_compare_crc_witness :
    compare_crc "2B1A" 6699 = Except.ok () ∧
    compare_crc "1A2B" 5 = Except.error (PErr.crcError 11034 5) := by
  constructor
  · exact (c6_compare_crc.1 "2B1A" 6699).mpr
      ⟨11034, by decide, Or.inr ⟨[43, 26], by decide, by decide⟩⟩
  · exact c6_compare_crc.2 "1A2B" 5 6699 11034 [26, 43]
      (by decide) (by decide) (by decide) (by decide) (by decide)

/-- The `as f64` cast is the identity on integers of magnitude below `2^53`. -/
theorem asF64_of_small (v : Int) (h : v.natAbs < 2 ^ 53) : asF64 v = v := by
  unfold asF64
  rw [if_pos h]

/-- The `handle_int!` embedding satisfies the amended C7 contract at any type name,
    width, signedness and scale: the length-error iff, the unscaled and zero-scale
    branches, the scaled branch through the `value as f64` cast, and the exact
    product on the subdomain where the cast is exact. -/
theorem handleInt_spec (ty : String) (w : Nat) (sgn : Bool) (sc : Rat) (bytes : List Nat) :
    (handleInt ty w sgn sc bytes =
        Except.error (PErr.validationFailed (VMsg.invalidLength ty w bytes.length)) ↔
      bytes.length ≠ w) ∧
    (bytes.length = w → sc = 1 →
      handleInt ty w sgn sc bytes = Except.ok (toString (intValue sgn w bytes))) ∧
    (bytes.length = w → sc = 0 →
      handleInt ty w sgn sc bytes = Except.error (PErr.validationFailed VMsg.zeroScale)) ∧
    (bytes.length = w → sc ≠ 1 → sc ≠ 0 →
      handleInt ty w sgn sc bytes =
        Except.ok (multiplyHalfUp6 (asF64 (intValue sgn w bytes)) sc)) ∧
    (bytes.length = w → sc ≠ 1 → sc ≠ 0 → (intValue sgn w bytes).natAbs < 2 ^ 53 →
      handleInt ty w sgn sc bytes = Except.ok (multiplyHalfUp6 (intValue sgn w bytes) sc)) := by
  unfold handleInt
  by_cases hlen : bytes.length ≠ w
  · rw [if_pos hlen]
    exact ⟨iff_of_true rfl hlen, fun h => absurd h hlen, fun h => absurd h hlen,
      fun h => absurd h hlen, fun h => absurd h hlen⟩
  · rw [if_neg hlen]
    push_neg at hlen
    dsimp only
    refine ⟨⟨fun h => ?_, fun h => absurd hlen h⟩, fun _ hsc => ?_, fun _ hsc => ?_,
      fun _ h1 h0 => ?_, fun _ h1 h0 hsmall => ?_⟩
    · exfalso
      split_ifs at h <;> simp at h
    · subst hsc
      rw [if_neg (by simp : ¬ ((1 : Rat) ≠ 1 ∧ (1 : Rat) ≠ 0)),
        if_neg (by norm_num : ¬ ((1 : Rat) = 0))]
    · subst hsc
      rw [if_neg (by simp : ¬ ((0 : Rat) ≠ 1 ∧ (0 : Rat) ≠ 0)), if_pos rfl]
    · rw [if_pos ⟨h1, h0⟩]
    · rw [if_pos ⟨h1, h0⟩, asF64_of_small _ hsmall]

/-- C7 (amended): for every integer `FieldType` variant, `convert` returns the
    length validation error exactly when the byte count differs from the variant's
    width; at the exact width it returns the big-endian integer as a decimal string
    for scale 1 and a validation error for scale 0; for any other scale the value
    first passes through the Rust `value as f64` cast before the half-up decimal
    multiply at 6 fractional digits, so the product is taken on the f64-rounded
    value — which equals the exact big-endian value whenever its magnitude is below
    `2^53` (always, for the 1/2/4-byte variants). -/
theorem c7_field_int_convert :
    ∀ (ft : FieldType) (ty : String) (w : Nat) (sgn : Bool) (sc : Rat) (bytes : List Nat),
      ft.intLayout = some (ty, w, sgn, sc) →
      ((ft.convert bytes =
          Except.error (PErr.validationFailed (VMsg.invalidLength ty w bytes.length)) ↔
        bytes.length ≠ w) ∧
      (bytes.length = w → sc = 1 →
        ft.convert bytes = Except.ok (toString (intValue sgn w bytes))) ∧
      (bytes.length = w → sc = 0 →
        ft.convert bytes = Except.error (PErr.validationFailed VMsg.zeroScale)) ∧
      (bytes.length = w → sc ≠ 1 → sc ≠ 0 →
        ft.convert bytes = Except.ok (multiplyHalfUp6 (asF64 (intValue sgn w bytes)) sc)) ∧
      (bytes.length = w → sc ≠ 1 → sc ≠ 0 → (intValue sgn w bytes).natAbs < 2 ^ 53 →
        ft.convert bytes = Except.ok (multiplyHalfUp6 (intValue sgn w bytes) sc))) := by
  intro ft ty w sgn sc bytes hlay
  cases ft with
  | StringOrBCD => simp [FieldType.intLayout] at hlay
  | Float => simp [FieldType.intLayout] at hlay
  | Double => simp [FieldType.intLayout] at hlay
  | Ascii => simp [FieldType.intLayout] at hlay
  | UnsignedU8 scale =>
    simp only [FieldType.intLayout, Option.some.injEq, Prod.mk.injEq] at hlay
    obtain ⟨rfl, rfl, rfl, rfl⟩ := hlay
    simpa only [FieldType.convert] using handleInt_spec "u8" 1 false scale bytes
  | UnsignedU16 scale =>
    simp only [FieldType.intLayout, Option.some.injEq, Prod.mk.injEq] at hlay
    obtain ⟨rfl, rfl, rfl, rfl⟩ := hlay
    simpa only [FieldType.convert] using handleInt_spec "u16" 2 false scale bytes
  | UnsignedU32 scale =>
    simp only [FieldType.intLayout, Option.some.injEq, Prod.mk.injEq] at hlay
    obtain ⟨rfl, rfl, rfl, rfl⟩ := hlay
    simpa only [FieldType.convert] using handleInt_spec "u32" 4 false scale bytes
  | UnsignedU64 scale =>
    simp only [FieldType.intLayout, Option.some.injEq, Prod.mk.injEq] at hlay
    obtain ⟨rfl, rfl, rfl, rfl⟩ := hlay
    simpa only [FieldType.convert] using handleInt_spec "u64" 8 false scale bytes
  | SignedI8 scale =>
    simp only [FieldType.intLayout, Option.some.injEq, Prod.mk.injEq] at hlay
    obtain ⟨rfl, rfl, rfl, rfl⟩ := hlay
    simpa only [FieldType.convert] using handleInt_spec "i8" 1 true scale bytes
  | SignedI16 scale =>
    simp only [FieldType.intLayout, Option.some.injEq, Prod.mk.injEq] at hlay
    obtain ⟨rfl, rfl, rfl, rfl⟩ := hlay
    simpa only [FieldType.convert] using handleInt_spec "i16" 2 true scale bytes
  | SignedI32 scale =>
    simp only [FieldType.intLayout, Option.some.injEq, Prod.mk.injEq] at hlay
    obtain ⟨rfl, rfl, rfl, rfl⟩ := hlay
    simpa only [FieldType.convert] using handleInt_spec "i32" 4 true scale bytes
  | SignedI64 scale =>
    simp only [FieldType.intLayout, Option.some.injEq, Prod.mk.injEq] at hlay
    obtain ⟨rfl, rfl, rfl, rfl⟩ := hlay
    simpa only [FieldType.convert] using handleInt_spec "i64" 8 true scale bytes

/-- C7 counterexample: for the 8-byte `UnsignedU64` variant at scale 1/2, the byte
    pattern of `2^53 + 1` converts through the `value as f64` cast (which rounds the
    value to `2^53`), so the code's output is the f64-drifted product, not the exact
    decimal product of the claimed big-endian value. -/
theorem c7_counterexample :
    FieldType.convert (FieldType.UnsignedU64 (1 / 2)) [0, 32, 0, 0, 0, 0, 0, 1] =
      Except.ok "4503599627370496.000000" ∧
    renderDecimal6 (halfUpScaled6
        (((intValue false 8 [0, 32, 0, 0, 0, 0, 0, 1] : Int) : Rat) * (1 / 2))) =
      "4503599627370496.500000" ∧
    ("4503599627370496.000000" : String) ≠ "4503599627370496.500000" := by
  refine ⟨?_, ?_, by decide⟩
  · show handleInt "u64" 8 false (1 / 2) [0, 32, 0, 0, 0, 0, 0, 1] = _
    unfold handleInt
    rw [if_neg (by decide : ¬ (([0, 32, 0, 0, 0, 0, 0, 1] : List Nat).length ≠ 8))]
    dsimp only
    rw [if_pos ⟨by norm_num, by norm_num⟩]
    rw [show asF64 (intValue false 8 [0, 32, 0, 0, 0, 0, 0, 1]) = 9007199254740992 from
      by decide]
    unfold multiplyHalfUp6
    rw [show halfUpScaled6 (((9007199254740992 : Int) : Rat) * (1 / 2)) =
        4503599627370496000000 from by
      unfold halfUpScaled6
      rw [if_pos (by norm_num)]
      norm_num]
    decide
  · rw [show (intValue false 8 [0, 32, 0, 0, 0, 0, 0, 1] : Int) = 9007199254740993 from
      by decide]
    rw [show halfUpScaled6 (((9007199254740993 : Int) : Rat) * (1 / 2)) =
        4503599627370496500000 from by
      unfold halfUpScaled6
      rw [if_pos (by norm_num)]
      norm_num]
    decide

/-- C7 witness: a signed decode at scale 1, a length error, a zero-scale error, and
    a genuine scaling with half-up rendering at 6 fractional digits on the exact
    subdomain of the cast. -/
theorem c7_field_int_convert_witness :
    FieldType.convert (.SignedI16 1) [255, 234] = Except.ok "-22" ∧
    FieldType.convert (.SignedI16 1) [1, 2, 3] =
      Except.error (PErr.validationFailed (VMsg.invalidLength "i16" 2 3)) ∧
    FieldType.convert (.UnsignedU8 0) [7] =
      Except.error (PErr.validationFailed VMsg.zeroScale) ∧
    FieldType.convert (.UnsignedU8 (1 / 2)) [7] = Except.ok "3.500000" := by
  refine ⟨?_, ?_, ?_, ?_⟩
  · have h := (c7_field_int_convert (.SignedI16 1) "i16" 2 true 1 [255, 234] rfl).2.1
      (by decide) rfl
    rw [h]
    decide
  · exact (c7_field_int_convert (.SignedI16 1) "i16" 2 true 1 [1, 2, 3] rfl).1.mpr (by decide)
  · exact (c7_field_int_convert (.UnsignedU8 0) "u8" 1 false 0 [7] rfl).2.2.1 (by decide) rfl
  · have h := (c7_field_int_convert (.UnsignedU8 (1 / 2)) "u8" 1 false (1 / 2) [7] rfl).2.2.2.2
      (by decide) (by norm_num) (by norm_num) (by decide)
    rw [h]
    have hiv : intValue false 1 [7] = 7 := by decide
    rw [hiv]
    have hval : halfUpScaled6 ((7 : Int) * (1 / 2 : Rat)) = 3500000 := by
      unfold halfUpScaled6
      rw [if_pos (by norm_num)]
      norm_num
    unfold multiplyHalfUp6
    rw [show (((7 : Int) : Rat) * (1 / 2 : Rat)) = ((7 : Int) * (1 / 2 : Rat)) from by norm_num,
      hval]
    decide

/-- Reversing a list of length at most one changes nothing. -/
theorem reverse_of_short {α : Type} (l : List α) (h : ¬ 1 < l.length) : l.reverse = l := by
  cases l with
  | nil => rfl
  | cons a t =>
    cases t with
    | nil => rfl
    | cons b t2 =>
      exact absurd (by simp) h

/-- C8: the enum translator never fails: it returns the `Rawfield` whose value is the
    label of the first `(hex, label)` pair matching the uppercase hex of the
    (byte-reversed when swap is set) input, and when no pair matches, the value falls
    back to that raw hex string itself. -/
theorem c8_enum_translate :
    ∀ (d : FieldEnumDecoder) (bytes : List Nat),
      d.translate bytes = Except.ok (Rawfield.new bytes d.title (specEnumValue d bytes)) ∧
      ((∀ p ∈ d.enum_values,
          p.1 ≠ bytesToHex (if d.swap then bytes.reverse else bytes)) →
        specEnumValue d bytes =
          bytesToHex (if d.swap then bytes.reverse else bytes)) := by
  intro d bytes
  have key : (if d.swap ∧ bytes.length > 1 then bytes.reverse else bytes) =
      (if d.swap then bytes.reverse else bytes) := by
    by_cases hs : (d.swap : Prop)
    · by_cases hl : bytes.length > 1
      · rw [if_pos ⟨hs, hl⟩, if_pos hs]
      · rw [if_neg (by tauto), if_pos hs, reverse_of_short bytes hl]
    · rw [if_neg (by tauto), if_neg hs]
  constructor
  · unfold FieldEnumDecoder.translate specEnumValue
    dsimp only
    rw [key]
  · intro hall
    unfold specEnumValue
    dsimp only
    have hnone : d.enum_values.find?
        (fun p => p.1 == bytesToHex (if d.swap then bytes.reverse else bytes)) = none := by
      rw [List.find?_eq_none]
      intro p hp
      simpa using hall p hp
    rw [hnone]

/-- C8 witness: a first-match lookup and an unmatched fallback to the raw hex. -/
theorem c8_enum_translate_witness :
    FieldEnumDecoder.translate ⟨"a", false, [("01", "one")]⟩ [1] =
      Except.ok (Rawfield.new [1] "a" (specEnumValue ⟨"a", false, [("01", "one")]⟩ [1])) ∧
    specEnumValue ⟨"b", false, [("02", "two")]⟩ [1] = "01" ∧
    FieldEnumDecoder.translate ⟨"b", false, [("02", "two")]⟩ [1] =
      Except.ok (Rawfield.new [1] "b" "01") := by
  refine ⟨(c8_enum_translate ⟨"a", false, [("01", "one")]⟩ [1]).1, ?_, ?_⟩
  · have h := (c8_enum_translate ⟨"b", false, [("02", "two")]⟩ [1]).2 (by decide)
    rw [h]
    decide
  · have h := (c8_enum_translate ⟨"b", false, [("02", "two")]⟩ [1]).1
    rw [h]
    decide

/-- C9: the swap flag names two different operations on the two sides of the codec.
    `reverseBits` (hence `swap_bytes`) reverses the bit order inside each byte and
    `swap_bytes` keeps the byte order; the decode-side translators with swap reverse
    the order of the byte sequence before interpretation; and `EncodingParams.to_bytes`
    with swap applies `swap_bytes` to the assembled bytes. -/
theorem c9_swap_meanings :
    (∀ b : Nat, b < 256 →
      reverseBits b < 256 ∧
        ∀ i : Nat, i < 8 → (reverseBits b).testBit i = b.testBit (7 - i)) ∧
    (∀ bytes : List Nat, swap_bytes bytes = bytes.map reverseBits ∧
      (swap_bytes bytes).length = bytes.length) ∧
    (∀ (d : FieldConvertDecoder) (bytes : List Nat) (rf : Rawfield),
      d.swap = true → d.translate bytes = Except.ok rf →
      ∃ v, d.filed_type.convert bytes.reverse = Except.ok v ∧
        rf.value = v ++ symbolSuffix d.symbol) ∧
    (∀ (p : EncodingParams) (input : String), p.swap = true →
      p.to_bytes input =
        Except.map swap_bytes ({ p with swap := false }.to_bytes input)) := by
  refine ⟨by decide, ?_, ?_, ?_⟩
  · intro bytes
    exact ⟨rfl, List.length_map _ _⟩
  · intro d bytes rf hs ht
    unfold FieldConvertDecoder.translate at ht
    dsimp only at ht
    have hkey : (if d.swap ∧ bytes.length > 1 then bytes.reverse else bytes) =
        bytes.reverse := by
      by_cases hl : bytes.length > 1
      · rw [if_pos ⟨by simp [hs], hl⟩]
      · rw [if_neg (by tauto), reverse_of_short bytes hl]
    rw [hkey] at ht
    revert ht
    cases hc : d.filed_type.convert bytes.reverse with
    | error e =>
      intro ht
      exact Except.noConfusion ht
    | ok v =>
      intro ht
      obtain rfl := Except.ok.inj ht
      refine ⟨v, rfl, ?_⟩
      cases hsym : d.symbol with
      | none => simp [Rawfield.new, symbolSuffix]
      | some s => simp [Rawfield.new, symbolSuffix, String.append_assoc]
  · intro p input hs
    unfold EncodingParams.to_bytes
    dsimp only
    cases (if input = "" then
        if p.default_hex ≠ "" then hex_to_bytes p.default_hex
        else if p.default_value ≠ "" then p.field_type_encode p.default_value
        else if p.required then
          Except.error (PErr.commonError "field is required but no value provided")
        else Except.ok []
      else p.field_type_encode input) with
    | error e => rfl
    | ok bytes0 =>
      dsimp only
      rw [hs]
      simp [Except.map]

/-- C9 witness: concrete bit reversal, a swapped convert translation, and a swapped
    encode producing the bit-reversed bytes of the unswapped encode. -/
theorem c9_swap_meanings_witness :
    (reverseBits 1 < 256 ∧
      ∀ i : Nat, i < 8 → (reverseBits 1).testBit i = (1 : Nat).testBit (7 - i)) ∧
    (∃ v, FieldType.convert FieldType.StringOrBCD ([1, 2].reverse) = Except.ok v ∧
      (Rawfield.new [1, 2] "t" "0201").value = v ++ symbolSuffix none) ∧
    EncodingParams.to_bytes ⟨"c", "t", 0, fun _ => Except.ok [1, 2], "", "", true, true⟩ "x" =
      Except.map swap_bytes
        (EncodingParams.to_bytes
          ⟨"c", "t", 0, fun _ => Except.ok [1, 2], "", "", false, true⟩ "x") := by
  refine ⟨c9_swap_meanings.1 1 (by decide), ?_, ?_⟩
  · exact c9_swap_meanings.2.2.1 ⟨"t", FieldType.StringOrBCD, true, none⟩ [1, 2]
      (Rawfield.new [1, 2] "t" "0201") rfl (by decide)
  · exact c9_swap_meanings.2.2.2
      ⟨"c", "t", 0, fun _ => Except.ok [1, 2], "", "", true, true⟩ "x" rfl

/-- C10: each of the three field translators stores the original input bytes and
    their uppercase hex in the produced `Rawfield`, even when swap is set: byte
    reversal affects only the computed value, never the stored raw bytes. -/
theorem c10_translators_preserve_bytes :
    (∀ (d : FieldConvertDecoder) (bytes : List Nat) (rf : Rawfield),
      d.translate bytes = Except.ok rf → rf.bytes = bytes ∧ rf.hex = bytesToHex bytes) ∧
    (∀ (d : FieldCompareDecoder) (bytes : List Nat) (rf : Rawfield),
      d.translate bytes = Except.ok rf → rf.bytes = bytes ∧ rf.hex = bytesToHex bytes) ∧
    (∀ (d : FieldEnumDecoder) (bytes : List Nat) (rf : Rawfield),
      d.translate bytes = Except.ok rf → rf.bytes = bytes ∧ rf.hex = bytesToHex bytes) := by
  refine ⟨?_, ?_, ?_⟩
  · intro d bytes rf ht
    unfold FieldConvertDecoder.translate at ht
    dsimp only at ht
    revert ht
    cases d.filed_type.convert (if d.swap ∧ bytes.length > 1 then bytes.reverse else bytes) with
    | error e =>
      intro ht
      exact Except.noConfusion ht
    | ok v =>
      intro ht
      obtain rfl := Except.ok.inj ht
      exact ⟨rfl, rfl⟩
  · intro d bytes rf ht
    unfold FieldCompareDecoder.translate at ht
    dsimp only at ht
    revert ht
    generalize (if d.swap ∧ bytes.length > 1 then bytes.reverse else bytes) = ib
    intro ht
    split_ifs at ht with hne
    obtain rfl := Except.ok.inj ht
    exact ⟨rfl, rfl⟩
  · intro d bytes rf ht
    unfold FieldEnumDecoder.translate at ht
    dsimp only at ht
    obtain rfl := Except.ok.inj ht
    exact ⟨rfl, rfl⟩

/-- C10 witness: one successful translation per translator, with swap set where it
    changes the interpreted bytes. -/
theorem c10_translators_witness :
    ((Rawfield.new [1, 2] "a" "0201").bytes = [1, 2] ∧
      (Rawfield.new [1, 2] "a" "0201").hex = bytesToHex [1, 2]) ∧
    ((Rawfield.new [1, 2] "b" "0201").bytes = [1, 2] ∧
      (Rawfield.new [1, 2] "b" "0201").hex = bytesToHex [1, 2]) ∧
    ((Rawfield.new [255] "c" "FF").bytes = [255] ∧
      (Rawfield.new [255] "c" "FF").hex = bytesToHex [255]) := by
  refine ⟨?_, ?_, ?_⟩
  · exact c10_translators_preserve_bytes.1 ⟨"a", FieldType.StringOrBCD, true, none⟩ [1, 2]
      (Rawfield.new [1, 2] "a" "0201") (by decide)
  · exact c10_translators_preserve_bytes.2.1 ⟨"b", true, [2, 1]⟩ [1, 2]
      (Rawfield.new [1, 2] "b" "0201") (by decide)
  · exact c10_translators_preserve_bytes.2.2 ⟨"c", false, []⟩ [255]
      (Rawfield.new [255] "c" "FF") (by decide)

/-- C1: the cipher round trip `decrypt(encrypt(p, iv), iv) = Ok(p)` fails on the
    code. First conjunct: the embedded block cipher matches the FIPS-197 AES-128
    vector, so the failures below are in the repository's mode code, not in the
    embedding. Second: CTS with a 17-byte plaintext decrypts to different bytes.
    Third: CFB with a 1-byte plaintext panics inside `GenericArray::clone_from_slice`
    (the feedback assignment precedes the partial-chunk guard). Fourth: CBC at 17
    bytes round-trips, isolating the failures to CTS and CFB. -/
theorem c1_cipher_roundtrip_bug :
    encryptBlock (keyExpansion (List.range 16))
        [0, 17, 34, 51, 68, 85, 102, 119, 136, 153, 170, 187, 204, 221, 238, 255] =
      [105, 196, 224, 216, 106, 123, 4, 48, 216, 205, 183, 128, 112, 180, 197, 90] ∧
    aesRoundTrip (List.range 16) AesMode.CTS
        [1, 2, 3, 4, 5, 6, 7, 8, 9, 10, 11, 12, 13, 14, 15, 16, 17]
        (List.replicate 16 0) ≠
      Except.ok [1, 2, 3, 4, 5, 6, 7, 8, 9, 10, 11, 12, 13, 14, 15, 16, 17] ∧
    AesCipher.encrypt ⟨keyExpansion (List.range 16), AesMode.CFB⟩ [65]
        (List.replicate 16 0) =
      Except.error "panicked: GenericArray::clone_from_slice slice length mismatch" ∧
    aesRoundTrip (List.range 16) AesMode.CBC
        [1, 2, 3, 4, 5, 6, 7, 8, 9, 10, 11, 12, 13, 14, 15, 16, 17]
        (List.replicate 16 0) =
      Except.ok [1, 2, 3, 4, 5, 6, 7, 8, 9, 10, 11, 12, 13, 14, 15, 16, 17] := by
  refine ⟨by decide, by decide, by decide, by decide⟩

end ProtocolCore
